import Mathlib

/-!
# GoBlog response cache (`cache.go`)

A shallow embedding of the HTTP response cache of GoBlog and of the parts of the
Go standard library it calls (`net/url`, `net/textproto`, `net/http.Header`,
`encoding/binary.Size`), followed by theorems about the embedded functions.

Go strings are byte sequences; they are modelled as lists of bytes.  Library
functions whose results the cache only passes along (date parsing and
formatting, hashing, the login check, the clock) are fields of `Env`.  The
in-memory store (ristretto) is an abstract state with `Get`, `Set` and
`SetWithTTL`, see `Store`.
-/

namespace GoBlog

/-! ## Bytes and strings -/

/-- A Go `byte`. -/
abbrev Byte := Fin 256

/-- A Go `string` or `[]byte`: a finite sequence of bytes. -/
abbrev GoString := List Byte

/-- The byte of an ASCII character. -/
def ch (c : Char) : Byte := Fin.ofNat c.toNat

/-- The bytes of an ASCII string literal. -/
def str (s : String) : GoString := s.toList.map ch

/-- Go's `strings.Cut(s, sep)` for a one-byte separator: the text before the first
`sep`, the text after it, and whether `sep` was found. -/
def cut (sep : Byte) : GoString → GoString × GoString × Bool
  | [] => ([], [], false)
  | c :: s =>
    if c = sep then ([], s, true)
    else ((c :: (cut sep s).1), (cut sep s).2.1, (cut sep s).2.2)

/-- The segments of `s` between occurrences of `sep` (as the loop
`for s != "" { seg, s, _ = strings.Cut(s, sep) ... }` visits them, plus possibly a
final empty segment, which every caller below skips). -/
def splitOnByte (sep : Byte) : GoString → List GoString
  | [] => [[]]
  | c :: s =>
    if c = sep then [] :: splitOnByte sep s
    else
      match splitOnByte sep s with
      | [] => [[c]]
      | seg :: segs => (c :: seg) :: segs

/-- Go's `<=` on strings: bytewise lexicographic order. -/
def strLE : GoString → GoString → Bool
  | [], _ => true
  | _ :: _, [] => false
  | a :: s, b :: t => if a.val < b.val then true else if b.val < a.val then false else strLE s t

/-- Go's `strings.Contains(s, sub)`. -/
def containsSub (s sub : GoString) : Bool :=
  s.tails.any (fun t => sub.isPrefixOf t)

/-- Lower-casing of one ASCII byte. -/
def toLowerByte (c : Byte) : Byte :=
  if 65 ≤ c.val ∧ c.val ≤ 90 then Fin.ofNat (c.val + 32) else c

/-- ASCII lower-casing of a string. -/
def toLowerASCII (s : GoString) : GoString := s.map toLowerByte

/-- Go's `fmt.Sprintf("%d", n)` for an `int`. -/
def formatInt (n : Int) : GoString :=
  if n < 0 then ch '-' :: (Nat.toDigits 10 n.natAbs).map ch
  else (Nat.toDigits 10 n.natAbs).map ch

/-! ## Go maps from strings to string slices (`url.Values`, `http.Header`) -/

/-- A `map[string][]string`, as an association list. A well-formed map has no key twice;
`mapGet` reads the first binding and the writers below keep well-formed maps well-formed. -/
abbrev StrMap := List (GoString × List GoString)

/-- The map read `m[k]`: `none` when `k` is not a key. -/
def mapGet (m : StrMap) (k : GoString) : Option (List GoString) :=
  match m with
  | [] => none
  | (k', vs) :: rest => if k' = k then some vs else mapGet rest k

/-- The map write `m[k] = vs`. -/
def mapSet (m : StrMap) (k : GoString) (vs : List GoString) : StrMap :=
  match m with
  | [] => [(k, vs)]
  | (k', vs') :: rest => if k' = k then (k, vs) :: rest else (k', vs') :: mapSet rest k vs

/-- The statement `m[k] = append(m[k], v)`. -/
def mapAppend (m : StrMap) (k : GoString) (v : GoString) : StrMap :=
  match m with
  | [] => [(k, [v])]
  | (k', vs) :: rest => if k' = k then (k', vs ++ [v]) :: rest else (k', vs) :: mapAppend rest k v

/-- The statement `delete(m, k)`. -/
def mapDelete (m : StrMap) (k : GoString) : StrMap :=
  m.filter (fun p => decide (p.1 ≠ k))

/-- The keys of a map in increasing order (`slices.Sort(keys)`). -/
def sortedKeys (m : StrMap) : List GoString :=
  (m.map Prod.fst).insertionSort (fun a b => strLE a b = true)

/-! ## `net/url` -/

/-- The encoding modes of `net/url` that the cache reaches. -/
inductive Encoding
  | encodePath
  | encodeQueryComponent
  deriving DecidableEq, Repr

/-- Reports `net/url.shouldEscape(c, mode)` for the two modes above. -/
def shouldEscape (c : Byte) (mode : Encoding) : Bool :=
  if (97 ≤ c.val ∧ c.val ≤ 122) ∨ (65 ≤ c.val ∧ c.val ≤ 90) ∨ (48 ≤ c.val ∧ c.val ≤ 57) then false
  else if c = ch '-' ∨ c = ch '_' ∨ c = ch '.' ∨ c = ch '~' then false
  else if c = ch '$' ∨ c = ch '&' ∨ c = ch '+' ∨ c = ch ',' ∨ c = ch '/' ∨ c = ch ':'
      ∨ c = ch ';' ∨ c = ch '=' ∨ c = ch '?' ∨ c = ch '@' then
    match mode with
    | Encoding.encodePath => decide (c = ch '?')
    | Encoding.encodeQueryComponent => true
  else true

/-- The digit `"0123456789ABCDEF"[n]`. -/
def upperhex (n : Nat) : Byte := (str "0123456789ABCDEF").getD n 0

/-- Reports `net/url.ishex`. -/
def ishex (c : Byte) : Bool :=
  (48 ≤ c.val ∧ c.val ≤ 57) ∨ (97 ≤ c.val ∧ c.val ≤ 102) ∨ (65 ≤ c.val ∧ c.val ≤ 70)

/-- The value `net/url.unhex(c)`. -/
def unhex (c : Byte) : Nat :=
  if 48 ≤ c.val ∧ c.val ≤ 57 then c.val - 48
  else if 97 ≤ c.val ∧ c.val ≤ 102 then c.val - 97 + 10
  else if 65 ≤ c.val ∧ c.val ≤ 70 then c.val - 65 + 10
  else 0

/-- What `net/url.escape` writes for one byte: the byte itself, `+` for a space in a query
component, or `%XX` with `XX = upperhex[c>>4], upperhex[c&15]`. -/
def escapeByte (c : Byte) (mode : Encoding) : GoString :=
  if shouldEscape c mode then
    if c = ch ' ' ∧ mode = Encoding.encodeQueryComponent then [ch '+']
    else [ch '%', upperhex (c.val / 16), upperhex (c.val % 16)]
  else [c]

/-- The function `net/url.escape(s, mode)`. -/
def escape : GoString → Encoding → GoString
  | [], _ => []
  | c :: s, mode => escapeByte c mode ++ escape s mode

/-- The function `net/url.unescape(s, mode)`; `none` is the `EscapeError` of a `%` that is
not followed by two hexadecimal digits. -/
def unescape : GoString → Encoding → Option GoString
  | [], _ => some []
  | [c], mode =>
    if c = ch '%' then none
    else if c = ch '+' ∧ mode = Encoding.encodeQueryComponent then some [ch ' ']
    else some [c]
  | [c, d], mode =>
    if c = ch '%' then none
    else
      (unescape [d] mode).map
        (fun t => (if c = ch '+' ∧ mode = Encoding.encodeQueryComponent then ch ' ' else c) :: t)
  | c :: d :: e :: rest, mode =>
    if c = ch '%' then
      if ishex d ∧ ishex e then
        (unescape rest mode).map (fun t => Fin.ofNat (unhex d * 16 + unhex e) :: t)
      else none
    else
      (unescape (d :: e :: rest) mode).map
        (fun t => (if c = ch '+' ∧ mode = Encoding.encodeQueryComponent then ch ' ' else c) :: t)

/-- The function `url.QueryEscape`. -/
def QueryEscape (s : GoString) : GoString := escape s Encoding.encodeQueryComponent

/-- The function `url.QueryUnescape`. -/
def QueryUnescape (s : GoString) : Option GoString := unescape s Encoding.encodeQueryComponent

/-- Reports `net/url.validEncoded(s, mode)`. -/
def validEncoded (s : GoString) (mode : Encoding) : Bool :=
  s.all (fun c =>
    if c = ch '!' ∨ c = ch '$' ∨ c = ch '&' ∨ c = 39 ∨ c = ch '(' ∨ c = ch ')' ∨ c = ch '*'
        ∨ c = ch '+' ∨ c = ch ',' ∨ c = ch ';' ∨ c = ch '=' ∨ c = ch ':' ∨ c = ch '@' then true
    else if c = ch '[' ∨ c = ch ']' then true
    else if c = ch '%' then true
    else !shouldEscape c mode)

/-- The fields of `url.URL` that the cache reads. -/
structure URL where
  Path : GoString
  RawPath : GoString
  RawQuery : GoString
  deriving DecidableEq, Repr

/-- The method `(*url.URL).EscapedPath`. -/
def URL.EscapedPath (u : URL) : GoString :=
  if u.RawPath ≠ [] ∧ validEncoded u.RawPath Encoding.encodePath = true
      ∧ unescape u.RawPath Encoding.encodePath = some u.Path then u.RawPath
  else if u.Path = str "*" then str "*"
  else escape u.Path Encoding.encodePath

/-- One round of the loop of `url.parseQuery`, for the segment `seg` between two `&`:
segments with a `;`, empty segments and segments whose key or value does not unescape are
skipped (the error is dropped by `URL.Query`); otherwise `m[key] = append(m[key], value)`. -/
def parseQuerySegment (m : StrMap) (seg : GoString) : StrMap :=
  if ch ';' ∈ seg then m
  else if seg = [] then m
  else
    match QueryUnescape (cut (ch '=') seg).1 with
    | none => m
    | some key =>
      match QueryUnescape (cut (ch '=') seg).2.1 with
      | none => m
      | some value => mapAppend m key value

/-- The method `(*url.URL).Query`: `url.ParseQuery(u.RawQuery)` with the error dropped. -/
def URL.Query (u : URL) : StrMap :=
  (splitOnByte (ch '&') u.RawQuery).foldl parseQuerySegment []

/-- The method `url.Values.Get`. -/
def valuesGet (v : StrMap) (key : GoString) : GoString :=
  match mapGet v key with
  | some (x :: _) => x
  | _ => []

/-- What `url.Values.Encode` appends to `buf` for the values `vs` of one key. -/
def encodeValues (keyEscaped : GoString) (buf : GoString) (vs : List GoString) : GoString :=
  vs.foldl
    (fun buf v => (if buf.length > 0 then buf ++ [ch '&'] else buf) ++ keyEscaped ++ [ch '=']
      ++ QueryEscape v)
    buf

/-- The method `url.Values.Encode`: keys in sorted order, each value as `key=value`,
both query-escaped, joined by `&`. -/
def valuesEncode (v : StrMap) : GoString :=
  if v.length = 0 then []
  else
    (sortedKeys v).foldl
      (fun buf k => encodeValues (QueryEscape k) buf ((mapGet v k).getD []))
      []

/-! ## `net/textproto` and `net/http.Header` -/

/-- Reports `textproto.validHeaderFieldByte`: the token characters of RFC 7230, that is
letters, digits and the marks `! # $ % & ' * + - . ^ _ | ~` and the grave accent. -/
def validHeaderFieldByte (c : Byte) : Bool :=
  if (97 ≤ c.val ∧ c.val ≤ 122) ∨ (65 ≤ c.val ∧ c.val ≤ 90) ∨ (48 ≤ c.val ∧ c.val ≤ 57) then true
  else c = ch '!' ∨ c = ch '#' ∨ c = ch '$' ∨ c = ch '%' ∨ c = ch '&' ∨ c = 39 ∨ c = ch '*'
    ∨ c = ch '+' ∨ c = ch '-' ∨ c = ch '.' ∨ c = ch '^' ∨ c = ch '_' ∨ c = 96 ∨ c = ch '|'
    ∨ c = ch '~'

/-- The second loop of `textproto.canonicalMIMEHeaderKey`: upper case for the first letter
and for each letter after a dash, lower case for the others. -/
def canonicalizeFrom (upper : Bool) : GoString → GoString
  | [] => []
  | c :: s =>
    if upper = true ∧ 97 ≤ c.val ∧ c.val ≤ 122 then
      Fin.ofNat (c.val - 32) :: canonicalizeFrom (decide ((Fin.ofNat (c.val - 32) : Byte) = ch '-')) s
    else if upper = false ∧ 65 ≤ c.val ∧ c.val ≤ 90 then
      Fin.ofNat (c.val + 32) :: canonicalizeFrom (decide ((Fin.ofNat (c.val + 32) : Byte) = ch '-')) s
    else c :: canonicalizeFrom (decide (c = ch '-')) s

/-- The function `textproto.CanonicalMIMEHeaderKey`: a key with a byte that is not a token
character (a space included) is returned unchanged. -/
def CanonicalMIMEHeaderKey (s : GoString) : GoString :=
  if s.all validHeaderFieldByte then canonicalizeFrom true s else s

/-- An `http.Header`. -/
abbrev Header := StrMap

/-- The method `http.Header.Get`: the first value under the canonical key, else `""`. -/
def headerGet (h : Header) (key : GoString) : GoString :=
  match mapGet h (CanonicalMIMEHeaderKey key) with
  | some (x :: _) => x
  | _ => []

/-- The method `http.Header.Set`. -/
def headerSet (h : Header) (key value : GoString) : Header :=
  mapSet h (CanonicalMIMEHeaderKey key) [value]

/-- The method `http.Header.Del`. -/
def headerDel (h : Header) (key : GoString) : Header :=
  mapDelete h (CanonicalMIMEHeaderKey key)

/-- Reports `textproto.isASCIISpace`. -/
def isASCIISpace (b : Byte) : Bool :=
  b = ch ' ' ∨ b = 9 ∨ b = 10 ∨ b = 13

/-- The function `textproto.TrimString`. -/
def TrimString (s : GoString) : GoString :=
  (((s.dropWhile isASCIISpace).reverse).dropWhile isASCIISpace).reverse

/-- The replacer `headerNewlineToSpace` of `net/http`: line feed and carriage return
become a space. -/
def headerNewlineToSpace (s : GoString) : GoString :=
  s.map (fun c => if c = 10 ∨ c = 13 then ch ' ' else c)

/-- Reports `httpguts.ValidHeaderFieldName`. -/
def ValidHeaderFieldName (k : GoString) : Bool :=
  decide (k ≠ []) && k.all (fun c => decide (c.val < 128) && validHeaderFieldByte c)

/-- What `http.Header.Write` writes for one key: nothing for an invalid field name, else
one line `key: value\r\n` for each value. -/
def writeHeaderLines (k : GoString) (vs : List GoString) : GoString :=
  if ValidHeaderFieldName k then
    vs.foldl
      (fun buf v => buf ++ k ++ str ": " ++ TrimString (headerNewlineToSpace v) ++ [13, 10])
      []
  else []

/-- The method `http.Header.Write`, as the text that ends up in the writer: the keys in
sorted order, each with its lines. -/
def headerWrite (h : Header) : GoString :=
  (sortedKeys h).foldl (fun buf k => buf ++ writeHeaderLines k ((mapGet h k).getD [])) []

/-! ## `encoding/binary` -/

/-- The function `binary.Size(v)` for `v` a Go `string`. `Size` is defined for fixed-size
values, slices of them and pointers to them; for any other value, a string included, the
kind falls through `sizeof` and the result is `-1`. -/
def binarySizeString (_ : GoString) : Int := -1

/-- The function `binary.Size(v)` for `v` a `[]byte`: one byte per element. -/
def binarySizeBytes (b : GoString) : Int := (b.length : Int)

/-! ## Requests, responses, configuration -/

/-- An instant (`time.Time`), in nanoseconds from a fixed origin. -/
abbrev Time := Int

/-- The method `time.Time.After`. -/
def Time.After (t u : Time) : Bool := decide (u < t)

/-- The request-scoped values the cache reads from `r.Context()`. A value is `none` when
the key is absent or holds a value of another type, which is when the checked type
assertion (`.(bool)`, `.(int)`) reports `ok = false`. -/
structure Context where
  /-- The value under `cacheLoggedInKey`. -/
  cacheLoggedIn : Option Bool
  /-- The value under `cacheExpirationKey`. -/
  cacheExpiration : Option Int
  /-- The value under `asRequestKey`. -/
  asRequest : Option Bool
  /-- The value under `torUsedKey`. -/
  torUsed : Option Bool
  /-- The value under `loggedInKey`. -/
  loggedIn : Option Bool
  deriving DecidableEq, Repr

/-- The fields of `http.Request` that the cache reads. -/
structure Request where
  Method : GoString
  URL : URL
  Header : Header
  ctx : Context
  deriving DecidableEq, Repr

/-- What `httptest.ResponseRecorder.Result()` holds after a handler ran: status code,
headers and the drained body. -/
structure Response where
  StatusCode : Int
  Header : Header
  Body : GoString
  deriving DecidableEq, Repr

/-- The downstream `http.Handler`, as the response it renders for a request. -/
abbrev Handler := Request → Response

/-- An `http.ResponseWriter`: its header map, the status passed to `WriteHeader` (if it
was called) and the bytes passed to `Write`. -/
structure ResponseWriter where
  header : Header
  status : Option Int
  body : GoString
  deriving DecidableEq, Repr

/-- The `cache` section of the configuration (`a.cfg.Cache`). -/
structure ConfigCache where
  Enable : Bool
  Expiration : Int
  deriving DecidableEq, Repr

/-- The configuration `a.cfg`; `Cache = none` is the nil pointer of an absent section. -/
structure Config where
  Cache : Option ConfigCache
  deriving DecidableEq, Repr

/-- The type `cacheItem`. -/
structure CacheItem where
  expiration : Int
  creationTime : Time
  eTag : GoString
  code : Int
  header : Header
  body : GoString
  deriving DecidableEq, Repr

/-- The store `*ristretto.Cache`, as an abstract state with the three calls the cache
makes. `Get` returns `none` when the library reports `ok = false`. -/
structure Store (σ : Type) where
  Get : σ → GoString → Option CacheItem
  Set : σ → GoString → CacheItem → Int → σ
  SetWithTTL : σ → GoString → CacheItem → Int → Int → σ

/-- A call on the store. -/
inductive StoreOp
  | get (key : GoString)
  | set (key : GoString) (item : CacheItem) (cost : Int)
  | setWithTTL (key : GoString) (item : CacheItem) (cost : Int) (ttl : Int)
  deriving DecidableEq, Repr

/-- The application `goBlog`: its configuration and `a.cache.c`, which is `none` (nil)
when the cache is disabled. -/
structure App (σ : Type) where
  cfg : Config
  c : Option σ

/-- Functions of the application and of its libraries that are called by the cache and
defined elsewhere. -/
structure Env where
  /-- The method `a.isLoggedIn(r)`. -/
  isLoggedIn : Request → Bool
  /-- The function `setLoggedIn(r, b)`, which replaces the context of `r`. -/
  setLoggedIn : Context → Bool → Context
  /-- The function `getSHA256` applied to the body. -/
  getSHA256 : GoString → GoString
  /-- The function `dateparse.ParseAny`; `none` is an error. -/
  parseAny : GoString → Option Time
  /-- The function `dateparse.ParseLocal`; `none` is an error. -/
  parseLocal : GoString → Option Time
  /-- The clock `time.Now()`. -/
  now : Time
  /-- The formatting `t.UTC().Format(http.TimeFormat)`. -/
  formatHTTPTime : Time → GoString

/-! ## `cache.go` -/

/-- Modelled from the spec: the helper `containsStrings(s, subStrings...)` is defined
outside `cache.go`. The specification gives the match of the cache directives as
case-insensitive and by substring: the result is true when some element of `subStrings`
occurs in `s`, letter case ignored. -/
def containsStrings (s : GoString) (subStrings : List GoString) : Bool :=
  subStrings.any (fun ss => containsSub (toLowerASCII s) (toLowerASCII ss))

/-- The function `cacheable`. -/
def cacheable (r : Request) : Bool :=
  if r.Method ≠ str "GET" ∧ r.Method ≠ str "HEAD" then false
  else if valuesGet r.URL.Query (str "cache") = str "0"
      ∨ valuesGet r.URL.Query (str "cache") = str "false" then false
  else true

/-- The function `cacheKey`. -/
def cacheKey (r : Request) : GoString :=
  let buf : GoString := []
  let buf := if r.ctx.asRequest = some true then buf ++ str "as-" else buf
  let buf := if r.ctx.torUsed = some true then buf ++ str "tor-" else buf
  let buf := buf ++ r.URL.EscapedPath
  if r.URL.Query.length > 0 then buf ++ [ch '?'] ++ valuesEncode r.URL.Query else buf

/-- The method `setCacheHeaders`, on the header map of the writer. The result is `none`
when the call panics, which is the nil pointer dereference `a.cfg.Cache.Expiration` with
no `cache` section in the configuration. The loop `for k, v := range cache.header.Clone()`
writes `w.Header()[k] = v` once per key of the map, in any order; on the association list
the writes run from the last binding to the first, so that the binding `mapGet` reads is
the one that stays. -/
def setCacheHeaders (env : Env) (cfg : Config) (wh : Header) (cache : CacheItem) :
    Option Header :=
  let wh := cache.header.foldr (fun kv h => mapSet h kv.1 kv.2) wh
  let wh := headerSet wh (str "ETag") cache.eTag
  let wh := headerSet wh (str "Last-Modified") (env.formatHTTPTime cache.creationTime)
  if headerGet wh (str "Cache-Control") = [] then
    if cache.expiration ≠ 0 then
      some (headerSet wh (str "Cache-Control")
        (str "public,max-age=" ++ formatInt cache.expiration
          ++ str ",stale-while-revalidate=" ++ formatInt cache.expiration))
    else
      match cfg.Cache with
      | none => none
      | some cc =>
        let exp := cc.Expiration
        some (headerSet wh (str "Cache-Control")
          (str "public,max-age=" ++ formatInt exp ++ str ",s-max-age=" ++ formatInt (exp.tdiv 3)
            ++ str ",stale-while-revalidate=" ++ formatInt exp))
  else some wh

/-- The method `cacheItem.cost`. -/
def CacheItem.cost (ci : CacheItem) : Int :=
  let headerBuf := headerWrite ci.header
  let headerSize := binarySizeString headerBuf
  let bodySize := binarySizeBytes ci.body
  headerSize + bodySize

/-- Conversion to `int64`, with wrap-around. -/
def wrapInt64 (n : Int) : Int := (n + 2 ^ 63) % 2 ^ 64 - 2 ^ 63

/-- The duration `time.Duration(exp) * time.Second`, in nanoseconds. -/
def secondsDuration (exp : Int) : Int := wrapInt64 (exp * 1000000000)

/-- What `getCache` returns and does. -/
structure GetCacheResult (σ : Type) where
  /-- The returned item. -/
  item : CacheItem
  /-- The store afterwards. -/
  store : σ
  /-- The calls made on the store, in order. -/
  ops : List StoreOp
  /-- The requests handed to `next.ServeHTTP(recorder, ·)`, in order. -/
  forwarded : List Request
  /-- The inbound request `*r` afterwards. -/
  inbound : Request
  deriving DecidableEq

/-- The copy `cr` that `getCache` makes of the request on a miss (`r.Clone` with the
context wrapped in `valueOnlyContext`) and then strips of the conditional and range
headers. The copy keeps method, URL and the values of the context and has its own header
map. -/
def clonedRequest (r : Request) : Request :=
  let cr : Request := { Method := r.Method, URL := r.URL, Header := r.Header, ctx := r.ctx }
  let cr := { cr with Header := headerDel cr.Header (str "If-Modified-Since") }
  let cr := { cr with Header := headerDel cr.Header (str "If-Unmodified-Since") }
  let cr := { cr with Header := headerDel cr.Header (str "If-None-Match") }
  let cr := { cr with Header := headerDel cr.Header (str "If-Match") }
  let cr := { cr with Header := headerDel cr.Header (str "If-Range") }
  let cr := { cr with Header := headerDel cr.Header (str "Range") }
  cr

/-- The cache item that `getCache` builds on a miss from `result`, the recorded response
of the downstream handler to the copy `cr`. -/
def recordedItem (env : Env) (cr : Request) (result : Response) : CacheItem :=
  let body := result.Body
  let eTag := headerGet result.Header (str "ETag")
  let eTag := if eTag = [] then env.getSHA256 body else eTag
  let lastMod := env.now
  let lm := headerGet result.Header (str "Last-Modified")
  let lastMod :=
    if lm ≠ [] then
      match env.parseLocal lm with
      | some parsedTime => parsedTime
      | none => lastMod
    else lastMod
  let header := headerDel result.Header (str "Accept-Ranges")
  let header := headerDel header (str "ETag")
  let header := headerDel header (str "Last-Modified")
  let exp := cr.ctx.cacheExpiration.getD 0
  { expiration := exp, creationTime := lastMod, eTag := eTag, code := result.StatusCode,
    header := header, body := body }

/-- The method `getCache`: a hit returns the stored item; a miss hands the copy
`clonedRequest r` to the downstream handler, builds `recordedItem` from the recorded
response and saves it unless its `Cache-Control` forbids that. -/
def getCache {σ : Type} (env : Env) (S : Store σ) (s : σ) (key : GoString) (next : Handler)
    (r : Request) : GetCacheResult σ :=
  match S.Get s key with
  | some item =>
    { item := item, store := s, ops := [StoreOp.get key], forwarded := [], inbound := r }
  | none =>
    let cr := clonedRequest r
    let item := recordedItem env cr (next cr)
    let exp := item.expiration
    let cch := headerGet item.header (str "Cache-Control")
    if !containsStrings cch [str "no-store", str "private", str "no-cache"] then
      if exp = 0 then
        { item := item, store := S.Set s key item item.cost,
          ops := [StoreOp.get key, StoreOp.set key item item.cost],
          forwarded := [cr], inbound := r }
      else
        { item := item, store := S.SetWithTTL s key item item.cost (secondsDuration exp),
          ops := [StoreOp.get key, StoreOp.setWithTTL key item item.cost (secondsDuration exp)],
          forwarded := [cr], inbound := r }
    else
      { item := item, store := s, ops := [StoreOp.get key], forwarded := [cr], inbound := r }

/-- What one run of the handler returned by `cacheMiddleware` does. -/
structure Outcome (σ : Type) where
  /-- The requests handed to `next.ServeHTTP(w, ·)` with the writer of the caller. -/
  direct : List Request
  /-- The requests handed to `next.ServeHTTP(recorder, ·)`. -/
  forwarded : List Request
  /-- The calls made on the store, in order. -/
  ops : List StoreOp
  /-- The store `a.cache.c` afterwards. -/
  store : Option σ
  /-- The writer, as far as the middleware itself wrote to it. -/
  w : ResponseWriter
  deriving DecidableEq

/-- The cached path of `cacheMiddleware`, from `key := cacheKey(r)` to the end of the
handler, for the store `s` and the request `r` as the login check left it. The call
`a.cache.g.Do(key, fn)` of one request on its own runs `fn` and returns its value. The
result is `none` when the run panics (see `setCacheHeaders`). -/
def serveCached {σ : Type} (env : Env) (S : Store σ) (cfg : Config) (s : σ) (next : Handler)
    (w : ResponseWriter) (r : Request) : Option (Outcome σ) :=
  let key := cacheKey r
  let g := getCache env S s key next r
  let ci := g.item
  match setCacheHeaders env cfg w.header ci with
  | none => none
  | some wh =>
    let w := { w with header := wh }
    let ifNoneMatchHeader := headerGet r.Header (str "If-None-Match")
    if ifNoneMatchHeader ≠ [] ∧ ifNoneMatchHeader = ci.eTag then
      some { direct := [], forwarded := g.forwarded, ops := g.ops, store := some g.store,
             w := { w with status := some 304 } }
    else
      let ifModifiedSinceHeader := headerGet r.Header (str "If-Modified-Since")
      if ifModifiedSinceHeader ≠ [] ∧
          (env.parseAny ifModifiedSinceHeader).any (fun t => Time.After t ci.creationTime)
            = true then
        some { direct := [], forwarded := g.forwarded, ops := g.ops, store := some g.store,
               w := { w with status := some 304 } }
      else
        some { direct := [], forwarded := g.forwarded, ops := g.ops, store := some g.store,
               w := { w with status := some ci.code, body := w.body ++ ci.body } }

/-- The handler returned by `cacheMiddleware(next)`, run on `(w, r)`. On the bypass
branches the only action is `next.ServeHTTP(w, r)`. -/
def cacheMiddleware {σ : Type} (env : Env) (S : Store σ) (a : App σ) (next : Handler)
    (w : ResponseWriter) (r : Request) : Option (Outcome σ) :=
  match a.c with
  | none => some { direct := [r], forwarded := [], ops := [], store := a.c, w := w }
  | some s =>
    if !cacheable r then
      some { direct := [r], forwarded := [], ops := [], store := a.c, w := w }
    else if r.ctx.cacheLoggedIn = some true then
      serveCached env S a.cfg s next w { r with ctx := env.setLoggedIn r.ctx false }
    else if env.isLoggedIn r then
      some { direct := [r], forwarded := [], ops := [], store := a.c, w := w }
    else serveCached env S a.cfg s next w r

/-- The request as the login check of `cacheMiddleware` leaves it: `setLoggedIn(r, false)`
has replaced the context of a request that carries the `cacheLoggedIn` flag. -/
def afterLoginCheck (env : Env) (r : Request) : Request :=
  if r.ctx.cacheLoggedIn = some true then { r with ctx := env.setLoggedIn r.ctx false } else r

/-- The method `initCache`: the application after the call and whether the returned
error is non-nil. `newCache` is what `ristretto.NewCache` returns for the fixed sizes:
the new store, or `none` together with an error. The store stays nil only for a
configuration that has a `cache` section with `Enable` false. -/
def initCache {σ : Type} (newCache : Option σ) (cfg : Config) : App σ × Bool :=
  match cfg.Cache with
  | some cc =>
    if !cc.Enable then ({ cfg := cfg, c := none }, false)
    else ({ cfg := cfg, c := newCache }, newCache.isNone)
  | none => ({ cfg := cfg, c := newCache }, newCache.isNone)

/-- The method `defaultCacheExpiration`. -/
def defaultCacheExpiration (cfg : Config) : Int :=
  match cfg.Cache with
  | some cc => cc.Expiration
  | none => 0

/-! ## The parameters of a query string -/

/-- The parameter that the loop of `url.parseQuery` reads from the segment `seg`, if it
reads one (see `parseQuerySegment`): the unescaped name and value. -/
def parsePair (seg : GoString) : Option (GoString × GoString) :=
  if ch ';' ∈ seg then none
  else if seg = [] then none
  else
    match QueryUnescape (cut (ch '=') seg).1 with
    | none => none
    | some key =>
      match QueryUnescape (cut (ch '=') seg).2.1 with
      | none => none
      | some value => some (key, value)

/-- The parameters of a raw query string, in the order in which they are written. -/
def queryPairs (raw : GoString) : List (GoString × GoString) :=
  (splitOnByte (ch '&') raw).filterMap parsePair

/-- The values that the parameters `ps` give to the name `k`, in order. -/
def valuesOf (ps : List (GoString × GoString)) (k : GoString) : List GoString :=
  (ps.filter (fun p => decide (p.1 = k))).map Prod.snd

/-- The mode prefix of a cache key. -/
def modePrefix (c : Context) : GoString :=
  (if c.asRequest = some true then str "as-" else [])
    ++ (if c.torUsed = some true then str "tor-" else [])

/-- The text `key=value` that `url.Values.Encode` writes for one parameter. -/
def pairPiece (p : GoString × GoString) : GoString :=
  QueryEscape p.1 ++ ch '=' :: QueryEscape p.2

/-- The texts of the parameters `ps`, each preceded by `&`. -/
def tailJoin : List (GoString × GoString) → GoString
  | [] => []
  | p :: ps => ch '&' :: (pairPiece p ++ tailJoin ps)

/-- The texts of the parameters `ps`, joined by `&`. -/
def joinPairs : List (GoString × GoString) → GoString
  | [] => []
  | p :: ps => pairPiece p ++ tailJoin ps

/-- The parameters of the map `m` for the keys `ks`, key by key. -/
def pairsOfKeys (m : StrMap) : List GoString → List (GoString × GoString)
  | [] => []
  | k :: ks => ((mapGet m k).getD []).map (fun v => (k, v)) ++ pairsOfKeys m ks

/-- The mode prefix of a cache key, from the two flags. -/
def modePrefixOf (asRequest torUsed : Bool) : GoString :=
  (if asRequest = true then str "as-" else []) ++ (if torUsed = true then str "tor-" else [])

/-! ## Concrete stores, environments and requests -/

/-- A store that keeps every item put into it, the newest first. -/
def listStore : Store (List (GoString × CacheItem)) where
  Get := fun s key => s.lookup key
  Set := fun s key item _ => (key, item) :: s
  SetWithTTL := fun s key item _ _ => (key, item) :: s

/-- Reads a time written as a decimal number; `none` for any other text. -/
def parseDecimal (s : GoString) : Option Time :=
  if s ≠ [] ∧ s.all (fun c => decide (48 ≤ c.val ∧ c.val ≤ 57)) = true then
    some ((s.foldl (fun n c => n * 10 + (c.val - 48)) 0 : Nat) : Int)
  else none

/-- An environment in which times are written as decimal numbers, the clock reads 500,
the login state is the context value under `loggedInKey`, and every body hashes to the
same text. -/
def decimalEnv : Env where
  isLoggedIn := fun r => decide (r.ctx.loggedIn = some true)
  setLoggedIn := fun ctx b => { ctx with loggedIn := some b }
  getSHA256 := fun _ => str "e3b0c442"
  parseAny := parseDecimal
  parseLocal := parseDecimal
  now := 500
  formatHTTPTime := formatInt

/-- A context without any of the values the cache reads. -/
def emptyContext : Context :=
  { cacheLoggedIn := none, cacheExpiration := none, asRequest := none, torUsed := none,
    loggedIn := none }

/-- The request `GET path?query` with the given headers and an empty context. -/
def getRequest (path query : String) (header : Header) : Request :=
  { Method := str "GET", URL := { Path := str path, RawPath := [], RawQuery := str query },
    Header := header, ctx := emptyContext }

/-- A downstream handler that renders the page `hello` for every request. -/
def helloHandler : Handler :=
  fun _ => { StatusCode := 200, Header := [(str "Content-Type", [str "text/html"])],
             Body := str "hello" }

/-- An application with the cache enabled, default expiration 600 and the store `s`. -/
def appWith (s : List (GoString × CacheItem)) : App (List (GoString × CacheItem)) :=
  { cfg := { Cache := some { Enable := true, Expiration := 600 } }, c := some s }

/-- A writer on which nothing has been written. -/
def freshWriter : ResponseWriter := { header := [], status := none, body := [] }

/-- A cached page: status 200, body `hello`, created at time 100, with the validator
`eTag`. -/
def helloItem (eTag : String) : CacheItem :=
  { expiration := 0, creationTime := 100, eTag := str eTag, code := 200,
    header := [(str "Content-Type", [str "text/html"])], body := str "hello" }

theorem getCache_ops_head {σ : Type} (env : Env) (S : Store σ) (s : σ) (key : GoString)
    (next : Handler) (r : Request) :
    (getCache env S s key next r).ops.head? = some (StoreOp.get key) := by
  unfold getCache
  cases S.Get s key with
  | some item => rfl
  | none =>
    simp only []
    split_ifs <;> rfl

theorem serveCached_isSome {σ : Type} (env : Env) (S : Store σ) (cfg : Config) (s : σ)
    (next : Handler) (w : ResponseWriter) (r : Request) :
    (serveCached env S cfg s next w r).isSome
      = (setCacheHeaders env cfg w.header (getCache env S s (cacheKey r) next r).item).isSome := by
  unfold serveCached
  cases hh : setCacheHeaders env cfg w.header (getCache env S s (cacheKey r) next r).item with
  | none => simp [hh]
  | some wh =>
    simp only [hh]
    split_ifs <;> rfl

theorem serveCached_some {σ : Type} (env : Env) (S : Store σ) (cfg : Config) (s : σ)
    (next : Handler) (w : ResponseWriter) (r : Request) (out : Outcome σ)
    (h : serveCached env S cfg s next w r = some out) :
    out.direct = []
      ∧ out.forwarded = (getCache env S s (cacheKey r) next r).forwarded
      ∧ out.ops = (getCache env S s (cacheKey r) next r).ops
      ∧ out.store = some (getCache env S s (cacheKey r) next r).store
      ∧ setCacheHeaders env cfg w.header (getCache env S s (cacheKey r) next r).item
          = some out.w.header := by
  unfold serveCached at h
  cases hh : setCacheHeaders env cfg w.header (getCache env S s (cacheKey r) next r).item with
  | none => simp [hh] at h
  | some wh =>
    simp only [hh] at h
    split_ifs at h <;> (cases h; simp)

theorem cacheable_eq_false_iff (r : Request) :
    cacheable r = false
      ↔ ((r.Method ≠ str "GET" ∧ r.Method ≠ str "HEAD")
          ∨ valuesGet r.URL.Query (str "cache") = str "0"
          ∨ valuesGet r.URL.Query (str "cache") = str "false") := by
  unfold cacheable
  split_ifs with h1 h2
  · simp [h1]
  · simp [h2]
  · simp [h1, h2]

theorem afterLoginCheck_Header (env : Env) (r : Request) :
    (afterLoginCheck env r).Header = r.Header := by
  unfold afterLoginCheck
  split_ifs <;> rfl

theorem cacheMiddleware_eq_serveCached {σ : Type} (env : Env) (S : Store σ) (a : App σ)
    (next : Handler) (w : ResponseWriter) (r : Request) (s : σ) (hs : a.c = some s)
    (hc : cacheable r = true)
    (hl : ¬ (env.isLoggedIn r = true ∧ r.ctx.cacheLoggedIn ≠ some true)) :
    cacheMiddleware env S a next w r
      = serveCached env S a.cfg s next w (afterLoginCheck env r) := by
  unfold cacheMiddleware afterLoginCheck
  simp only [hs, hc]
  by_cases hf : r.ctx.cacheLoggedIn = some true
  · simp [hf]
  · have : env.isLoggedIn r = false := by
      cases hi : env.isLoggedIn r
      · rfl
      · exact absurd ⟨hi, hf⟩ hl
    simp [hf, this]

/-- Claim C1. `cacheMiddleware` hands the original request straight to the downstream
handler, with no call on the store and nothing written by the middleware itself, exactly
when the store is disabled (`a.c` is nil), or `cacheable r` is false, or the request is
logged in and carries no `cacheLoggedIn` flag; `cacheable r` is false exactly when the
method is neither GET nor HEAD or the query parameter `cache` is `0` or `false`; and in
every other case `cacheable r` is true and the cached path is taken: the store is read
under the cache key, the headers are synthesized from the resolved item (the run ends
exactly when that synthesis does), and nothing goes to the downstream handler on the
caller's writer. -/
theorem cacheMiddleware_bypass_iff {σ : Type} (env : Env) (S : Store σ) (a : App σ)
    (next : Handler) (w : ResponseWriter) (r : Request) :
    (cacheMiddleware env S a next w r
        = some { direct := [r], forwarded := [], ops := [], store := a.c, w := w }
      ↔ (a.c = none ∨ cacheable r = false
          ∨ (env.isLoggedIn r = true ∧ r.ctx.cacheLoggedIn ≠ some true)))
    ∧ (cacheable r = false
      ↔ ((r.Method ≠ str "GET" ∧ r.Method ≠ str "HEAD")
          ∨ valuesGet r.URL.Query (str "cache") = str "0"
          ∨ valuesGet r.URL.Query (str "cache") = str "false"))
    ∧ (¬ (a.c = none ∨ cacheable r = false
          ∨ (env.isLoggedIn r = true ∧ r.ctx.cacheLoggedIn ≠ some true))
      → cacheable r = true
        ∧ ∃ s, a.c = some s
          ∧ cacheMiddleware env S a next w r
              = serveCached env S a.cfg s next w (afterLoginCheck env r)
          ∧ (cacheMiddleware env S a next w r).isSome
              = (setCacheHeaders env a.cfg w.header
                  (getCache env S s (cacheKey (afterLoginCheck env r)) next
                    (afterLoginCheck env r)).item).isSome
          ∧ ∀ out, cacheMiddleware env S a next w r = some out →
              out.direct = []
              ∧ out.ops.head? = some (StoreOp.get (cacheKey (afterLoginCheck env r)))
              ∧ setCacheHeaders env a.cfg w.header
                  (getCache env S s (cacheKey (afterLoginCheck env r)) next
                    (afterLoginCheck env r)).item = some out.w.header) := by
  have key : ∀ s, a.c = some s → cacheable r = true →
      ¬ (env.isLoggedIn r = true ∧ r.ctx.cacheLoggedIn ≠ some true) →
      cacheMiddleware env S a next w r
        = serveCached env S a.cfg s next w (afterLoginCheck env r) :=
    fun s hs hc hl => cacheMiddleware_eq_serveCached env S a next w r s hs hc hl
  refine ⟨?_, cacheable_eq_false_iff r, ?_⟩
  · constructor
    · intro h
      by_contra hcon
      push_neg at hcon
      obtain ⟨hc, hcb, hl⟩ := hcon
      obtain ⟨s, hs⟩ := Option.ne_none_iff_exists'.mp hc
      have hcb' : cacheable r = true := by simpa using hcb
      have hl' : ¬ (env.isLoggedIn r = true ∧ r.ctx.cacheLoggedIn ≠ some true) := by
        rintro ⟨h1, h2⟩
        exact h2 (hl h1)
      rw [key s hs hcb' hl'] at h
      have := (serveCached_some env S a.cfg s next w _ _ h).1
      simp at this
    · rintro (h | h | ⟨h1, h2⟩)
      · unfold cacheMiddleware
        rw [h]
      · unfold cacheMiddleware
        cases hc : a.c with
        | none => rfl
        | some s => simp [h]
      · unfold cacheMiddleware
        cases hc : a.c with
        | none => rfl
        | some s =>
          simp only []
          split_ifs <;> rfl
  · intro hcon
    push_neg at hcon
    obtain ⟨hc, hcb, hl⟩ := hcon
    obtain ⟨s, hs⟩ := Option.ne_none_iff_exists'.mp hc
    have hcb' : cacheable r = true := by simpa using hcb
    have hl' : ¬ (env.isLoggedIn r = true ∧ r.ctx.cacheLoggedIn ≠ some true) := by
      rintro ⟨h1, h2⟩
      exact h2 (hl h1)
    refine ⟨hcb', s, hs, key s hs hcb' hl', ?_, ?_⟩
    · rw [key s hs hcb' hl', serveCached_isSome]
    · intro out hout
      rw [key s hs hcb' hl'] at hout
      obtain ⟨h1, _, h3, _, h5⟩ := serveCached_some env S a.cfg s next w _ _ hout
      refine ⟨h1, ?_, h5⟩
      rw [h3, getCache_ops_head]

/-! ## Conditional requests -/

/-- Claim C2, amended. On the cached path, for the resolved item `ci` and a request whose
`If-None-Match` is not the validator: the answer is 304 with no body when
`If-Modified-Since` is present, parses and is strictly after the creation time of `ci`;
the answer is the status code and the full body of `ci` when the header is absent, does
not parse, or parses to a time at or before the creation time. -/
theorem cacheMiddleware_ifModifiedSince {σ : Type} (env : Env) (S : Store σ) (a : App σ)
    (next : Handler) (w : ResponseWriter) (r : Request) (s : σ) (ci : CacheItem)
    (wh : Header) (hs : a.c = some s) (hc : cacheable r = true)
    (hl : ¬ (env.isLoggedIn r = true ∧ r.ctx.cacheLoggedIn ≠ some true))
    (hci : (getCache env S s (cacheKey (afterLoginCheck env r)) next
      (afterLoginCheck env r)).item = ci)
    (hh : setCacheHeaders env a.cfg w.header ci = some wh)
    (hinm : headerGet r.Header (str "If-None-Match") ≠ ci.eTag) :
    (∀ t, headerGet r.Header (str "If-Modified-Since") ≠ [] →
        env.parseAny (headerGet r.Header (str "If-Modified-Since")) = some t →
        ci.creationTime < t →
        ∃ out, cacheMiddleware env S a next w r = some out
          ∧ out.w = { header := wh, status := some 304, body := w.body })
    ∧ ((headerGet r.Header (str "If-Modified-Since") = []
          ∨ env.parseAny (headerGet r.Header (str "If-Modified-Since")) = none
          ∨ ∃ t, env.parseAny (headerGet r.Header (str "If-Modified-Since")) = some t
              ∧ t ≤ ci.creationTime) →
        ∃ out, cacheMiddleware env S a next w r = some out
          ∧ out.w = { header := wh, status := some ci.code, body := w.body ++ ci.body }) := by
  rw [cacheMiddleware_eq_serveCached env S a next w r s hs hc hl]
  unfold serveCached
  simp only [hci, hh, afterLoginCheck_Header]
  have h1 : ¬ (headerGet r.Header (str "If-None-Match") ≠ []
      ∧ headerGet r.Header (str "If-None-Match") = ci.eTag) := fun h => hinm h.2
  simp only [h1, if_false]
  constructor
  · intro t hne hp hlt
    have : (headerGet r.Header (str "If-Modified-Since") ≠ [] ∧
        (env.parseAny (headerGet r.Header (str "If-Modified-Since"))).any
          (fun t => Time.After t ci.creationTime) = true) := by
      refine ⟨hne, ?_⟩
      rw [hp]
      simp [Option.any, Time.After, hlt]
    rw [if_pos this]
    exact ⟨_, rfl, rfl⟩
  · intro h
    have : ¬ (headerGet r.Header (str "If-Modified-Since") ≠ [] ∧
        (env.parseAny (headerGet r.Header (str "If-Modified-Since"))).any
          (fun t => Time.After t ci.creationTime) = true) := by
      rintro ⟨hne, hany⟩
      rcases h with h | h | ⟨t, hp, hle⟩
      · exact hne h
      · rw [h] at hany
        simp [Option.any] at hany
      · rw [hp] at hany
        simp only [Option.any, Time.After, decide_eq_true_eq] at hany
        exact absurd hany (not_lt_of_le hle)
    rw [if_neg this]
    exact ⟨_, rfl, rfl⟩

/-- Witness for C2 (amended): a hit on a page created at time 100, asked for with
`If-Modified-Since: 101`. -/
theorem cacheMiddleware_ifModifiedSince_witness :
    ∃ out, cacheMiddleware decimalEnv listStore (appWith [(str "/a", helloItem "v1")])
        helloHandler freshWriter (getRequest "/a" "" [(str "If-Modified-Since", [str "101"])])
          = some out
      ∧ out.w = { header := [(str "Content-Type", [str "text/html"]), (str "Etag", [str "v1"]),
                    (str "Last-Modified", [str "100"]),
                    (str "Cache-Control",
                      [str "public,max-age=600,s-max-age=200,stale-while-revalidate=600"])],
                  status := some 304, body := [] } :=
  (cacheMiddleware_ifModifiedSince decimalEnv listStore (appWith [(str "/a", helloItem "v1")])
    helloHandler freshWriter (getRequest "/a" "" [(str "If-Modified-Since", [str "101"])])
    [(str "/a", helloItem "v1")] (helloItem "v1")
    [(str "Content-Type", [str "text/html"]), (str "Etag", [str "v1"]),
      (str "Last-Modified", [str "100"]),
      (str "Cache-Control", [str "public,max-age=600,s-max-age=200,stale-while-revalidate=600"])]
    rfl (by decide) (by decide) (by decide) (by decide) (by decide)).1 101 (by decide)
    (by decide) (by decide)

/-- Counterexample to C2 as stated: the page was created at time 100 and the request
carries `If-Modified-Since: 100`, which parses to the creation time itself, and no
`If-None-Match`; the answer is not 304 but status 200 with the full body. -/
theorem ifModifiedSince_equal_counterexample :
    decimalEnv.parseAny (str "100") = some (helloItem "v1").creationTime
    ∧ cacheMiddleware decimalEnv listStore (appWith [(str "/a", helloItem "v1")])
        helloHandler freshWriter (getRequest "/a" "" [(str "If-Modified-Since", [str "100"])])
      = some { direct := [], forwarded := [], ops := [StoreOp.get (str "/a")],
               store := some [(str "/a", helloItem "v1")],
               w := { header := [(str "Content-Type", [str "text/html"]),
                        (str "Etag", [str "v1"]), (str "Last-Modified", [str "100"]),
                        (str "Cache-Control",
                          [str "public,max-age=600,s-max-age=200,stale-while-revalidate=600"])],
                      status := some 200, body := str "hello" } } := by
  decide

/-- Claim C3, amended. On the cached path, for the resolved item `ci`: when the request's
`If-None-Match` is not empty and equals the validator of `ci`, the answer is 304 and no
body byte is written; when it differs from the validator and the `If-Modified-Since`
check does not fire, the answer is the status code and the body of `ci`, whatever the
value of `If-None-Match`. -/
theorem cacheMiddleware_ifNoneMatch {σ : Type} (env : Env) (S : Store σ) (a : App σ)
    (next : Handler) (w : ResponseWriter) (r : Request) (s : σ) (ci : CacheItem)
    (wh : Header) (hs : a.c = some s) (hc : cacheable r = true)
    (hl : ¬ (env.isLoggedIn r = true ∧ r.ctx.cacheLoggedIn ≠ some true))
    (hci : (getCache env S s (cacheKey (afterLoginCheck env r)) next
      (afterLoginCheck env r)).item = ci)
    (hh : setCacheHeaders env a.cfg w.header ci = some wh) :
    (headerGet r.Header (str "If-None-Match") ≠ [] →
        headerGet r.Header (str "If-None-Match") = ci.eTag →
        ∃ out, cacheMiddleware env S a next w r = some out
          ∧ out.w = { header := wh, status := some 304, body := w.body })
    ∧ (headerGet r.Header (str "If-None-Match") ≠ ci.eTag →
        ¬ (headerGet r.Header (str "If-Modified-Since") ≠ []
            ∧ ∃ t, env.parseAny (headerGet r.Header (str "If-Modified-Since")) = some t
                ∧ ci.creationTime < t) →
        ∃ out, cacheMiddleware env S a next w r = some out
          ∧ out.w = { header := wh, status := some ci.code, body := w.body ++ ci.body }) := by
  rw [cacheMiddleware_eq_serveCached env S a next w r s hs hc hl]
  unfold serveCached
  simp only [hci, hh, afterLoginCheck_Header]
  constructor
  · intro hne heq
    rw [if_pos ⟨hne, heq⟩]
    exact ⟨_, rfl, rfl⟩
  · intro hne hims
    rw [if_neg (fun h => hne h.2)]
    have : ¬ (headerGet r.Header (str "If-Modified-Since") ≠ [] ∧
        (env.parseAny (headerGet r.Header (str "If-Modified-Since"))).any
          (fun t => Time.After t ci.creationTime) = true) := by
      rintro ⟨h1, h2⟩
      apply hims
      refine ⟨h1, ?_⟩
      cases hp : env.parseAny (headerGet r.Header (str "If-Modified-Since")) with
      | none => rw [hp] at h2; simp [Option.any] at h2
      | some t =>
        rw [hp] at h2
        simp only [Option.any, Time.After, decide_eq_true_eq] at h2
        exact ⟨t, rfl, h2⟩
    simp only [this, if_false]
    exact ⟨_, rfl, rfl⟩

/-- Witness for C3 (amended): a hit on a page with validator `v1`, asked for with
`If-None-Match: v1`. -/
theorem cacheMiddleware_ifNoneMatch_witness :
    ∃ out, cacheMiddleware decimalEnv listStore (appWith [(str "/a", helloItem "v1")])
        helloHandler freshWriter (getRequest "/a" "" [(str "If-None-Match", [str "v1"])])
          = some out
      ∧ out.w = { header := [(str "Content-Type", [str "text/html"]), (str "Etag", [str "v1"]),
                    (str "Last-Modified", [str "100"]),
                    (str "Cache-Control",
                      [str "public,max-age=600,s-max-age=200,stale-while-revalidate=600"])],
                  status := some 304, body := [] } :=
  (cacheMiddleware_ifNoneMatch decimalEnv listStore (appWith [(str "/a", helloItem "v1")])
    helloHandler freshWriter (getRequest "/a" "" [(str "If-None-Match", [str "v1"])])
    [(str "/a", helloItem "v1")] (helloItem "v1")
    [(str "Content-Type", [str "text/html"]), (str "Etag", [str "v1"]),
      (str "Last-Modified", [str "100"]),
      (str "Cache-Control", [str "public,max-age=600,s-max-age=200,stale-while-revalidate=600"])]
    rfl (by decide) (by decide) (by decide) (by decide)).1 (by decide) (by decide)

/-- Counterexample to C3 as stated: the cached item has the empty validator and the
request carries an `If-None-Match` header with the empty value, so the header equals the
validator exactly; the answer is not 304 but status 200 with the full body. -/
theorem ifNoneMatch_empty_counterexample :
    mapGet (getRequest "/a" "" [(str "If-None-Match", [[]])]).Header (str "If-None-Match")
      = some [(helloItem "").eTag]
    ∧ headerGet (getRequest "/a" "" [(str "If-None-Match", [[]])]).Header (str "If-None-Match")
      = (helloItem "").eTag
    ∧ cacheMiddleware decimalEnv listStore (appWith [(str "/a", helloItem "")])
        helloHandler freshWriter (getRequest "/a" "" [(str "If-None-Match", [[]])])
      = some { direct := [], forwarded := [], ops := [StoreOp.get (str "/a")],
               store := some [(str "/a", helloItem "")],
               w := { header := [(str "Content-Type", [str "text/html"]),
                        (str "Etag", [[]]), (str "Last-Modified", [str "100"]),
                        (str "Cache-Control",
                          [str "public,max-age=600,s-max-age=200,stale-while-revalidate=600"])],
                      status := some 200, body := str "hello" } } := by
  decide

/-! ## Header synthesis -/

theorem mapGet_mapSet (m : StrMap) (k k' : GoString) (vs : List GoString) :
    mapGet (mapSet m k vs) k' = if k = k' then some vs else mapGet m k' := by
  induction m with
  | nil => simp [mapSet, mapGet]
  | cons p rest ih =>
    obtain ⟨k0, v0⟩ := p
    simp only [mapSet]
    by_cases h : k0 = k
    · subst h
      simp only [if_true, mapGet]
      by_cases h2 : k0 = k' <;> simp [h2]
    · simp only [h, if_false, mapGet, ih]
      by_cases h2 : k0 = k'
      · subst h2
        simp [Ne.symm h]
      · simp [h2]

theorem mapGet_foldr_mapSet (l wh : StrMap) (k : GoString) :
    mapGet (l.foldr (fun kv h => mapSet h kv.1 kv.2) wh) k
      = (mapGet l k).orElse (fun _ => mapGet wh k) := by
  induction l with
  | nil => simp [mapGet]
  | cons p rest ih =>
    obtain ⟨k0, v0⟩ := p
    simp only [List.foldr, mapGet_mapSet, mapGet, ih]
    by_cases h : k0 = k <;> simp [h]

theorem canonical_cacheControl :
    CanonicalMIMEHeaderKey (str "Cache-Control") = str "Cache-Control" := by decide

theorem canonical_eTag : CanonicalMIMEHeaderKey (str "ETag") = str "Etag" := by decide

theorem canonical_lastModified :
    CanonicalMIMEHeaderKey (str "Last-Modified") = str "Last-Modified" := by decide

/-- The `Cache-Control` entry of the writer's header map after the copy of the item's
headers and the writes of `ETag` and `Last-Modified`. -/
theorem mapGet_cacheControl_merged (env : Env) (wh : Header) (ci : CacheItem) :
    mapGet (headerSet (headerSet (ci.header.foldr (fun kv h => mapSet h kv.1 kv.2) wh)
        (str "ETag") ci.eTag) (str "Last-Modified") (env.formatHTTPTime ci.creationTime))
      (str "Cache-Control")
      = (mapGet ci.header (str "Cache-Control")).orElse
          (fun _ => mapGet wh (str "Cache-Control")) := by
  unfold headerSet
  rw [mapGet_mapSet, mapGet_mapSet, mapGet_foldr_mapSet, canonical_eTag, canonical_lastModified]
  have h1 : ¬ (str "Last-Modified" = str "Cache-Control") := by decide
  have h2 : ¬ (str "Etag" = str "Cache-Control") := by decide
  simp only [h1, h2, if_false]

/-- Claim C4, amended. For a cache item whose stored headers give no `Cache-Control` value,
written to a response that carries none yet, `setCacheHeaders` sets `Cache-Control` to
exactly `public,max-age=E,stale-while-revalidate=E` when the item's expiration `E` is not
0, and to exactly `public,max-age=D,s-max-age=D/3,stale-while-revalidate=D` when it is 0,
`D` being the configured default expiration and `D/3` the quotient truncated toward zero;
when the stored headers carry a `Cache-Control` value, the response carries the stored
`Cache-Control` values. -/
theorem setCacheHeaders_cacheControl (env : Env) (cfg : Config) (wh : Header)
    (ci : CacheItem) :
    (headerGet ci.header (str "Cache-Control") = [] → headerGet wh (str "Cache-Control") = [] →
      (ci.expiration ≠ 0 →
        ∃ h, setCacheHeaders env cfg wh ci = some h
          ∧ mapGet h (str "Cache-Control")
            = some [str "public,max-age=" ++ formatInt ci.expiration
                ++ str ",stale-while-revalidate=" ++ formatInt ci.expiration])
      ∧ (ci.expiration = 0 → ∀ cc, cfg.Cache = some cc →
        ∃ h, setCacheHeaders env cfg wh ci = some h
          ∧ mapGet h (str "Cache-Control")
            = some [str "public,max-age=" ++ formatInt cc.Expiration
                ++ str ",s-max-age=" ++ formatInt (cc.Expiration.tdiv 3)
                ++ str ",stale-while-revalidate=" ++ formatInt cc.Expiration]))
    ∧ (headerGet ci.header (str "Cache-Control") ≠ [] →
        ∃ h, setCacheHeaders env cfg wh ci = some h
          ∧ mapGet h (str "Cache-Control") = mapGet ci.header (str "Cache-Control")) := by
  have hm := mapGet_cacheControl_merged env wh ci
  constructor
  · intro hci hw
    have hget : headerGet (headerSet (headerSet
        (ci.header.foldr (fun kv h => mapSet h kv.1 kv.2) wh)
        (str "ETag") ci.eTag) (str "Last-Modified") (env.formatHTTPTime ci.creationTime))
        (str "Cache-Control") = [] := by
      unfold headerGet at hci hw ⊢
      rw [canonical_cacheControl] at hci hw ⊢
      rw [hm]
      cases hc : mapGet ci.header (str "Cache-Control") with
      | none => simpa [hc] using hw
      | some v => simpa [hc] using hci
    constructor
    · intro he
      have hs : setCacheHeaders env cfg wh ci
          = some (headerSet (headerSet (headerSet
              (ci.header.foldr (fun kv h => mapSet h kv.1 kv.2) wh)
              (str "ETag") ci.eTag) (str "Last-Modified") (env.formatHTTPTime ci.creationTime))
              (str "Cache-Control")
              (str "public,max-age=" ++ formatInt ci.expiration
                ++ str ",stale-while-revalidate=" ++ formatInt ci.expiration)) := by
        unfold setCacheHeaders
        simp only [hget, he, if_true, ne_eq, not_false_eq_true]
      refine ⟨_, hs, ?_⟩
      unfold headerSet
      rw [mapGet_mapSet, canonical_cacheControl]
      simp
    · intro he cc hcc
      have hs : setCacheHeaders env cfg wh ci
          = some (headerSet (headerSet (headerSet
              (ci.header.foldr (fun kv h => mapSet h kv.1 kv.2) wh)
              (str "ETag") ci.eTag) (str "Last-Modified") (env.formatHTTPTime ci.creationTime))
              (str "Cache-Control")
              (str "public,max-age=" ++ formatInt cc.Expiration
                ++ str ",s-max-age=" ++ formatInt (cc.Expiration.tdiv 3)
                ++ str ",stale-while-revalidate=" ++ formatInt cc.Expiration)) := by
        unfold setCacheHeaders
        simp only [hget, he, hcc, if_true, ne_eq, not_true_eq_false, if_false]
      refine ⟨_, hs, ?_⟩
      unfold headerSet
      rw [mapGet_mapSet, canonical_cacheControl]
      simp
  · intro hci
    have hsome : ∃ v, mapGet ci.header (str "Cache-Control") = some v := by
      unfold headerGet at hci
      rw [canonical_cacheControl] at hci
      cases hc : mapGet ci.header (str "Cache-Control") with
      | none => simp [hc] at hci
      | some v => exact ⟨v, rfl⟩
    obtain ⟨v, hv⟩ := hsome
    have hget : headerGet (headerSet (headerSet
        (ci.header.foldr (fun kv h => mapSet h kv.1 kv.2) wh)
        (str "ETag") ci.eTag) (str "Last-Modified") (env.formatHTTPTime ci.creationTime))
        (str "Cache-Control") ≠ [] := by
      unfold headerGet at hci ⊢
      rw [canonical_cacheControl] at hci ⊢
      rw [hm, hv]
      simpa [hv] using hci
    have hs : setCacheHeaders env cfg wh ci
        = some (headerSet (headerSet
            (ci.header.foldr (fun kv h => mapSet h kv.1 kv.2) wh)
            (str "ETag") ci.eTag) (str "Last-Modified")
            (env.formatHTTPTime ci.creationTime)) := by
      unfold setCacheHeaders
      simp only [hget, if_false]
    refine ⟨_, hs, ?_⟩
    rw [hm, hv]
    rfl

/-- Witness for C4 (amended): an item without `Cache-Control` and with expiration 60,
written to a fresh response. -/
theorem setCacheHeaders_cacheControl_witness :
    ∃ h, setCacheHeaders decimalEnv { Cache := some { Enable := true, Expiration := 600 } } []
        { helloItem "v1" with expiration := 60 } = some h
      ∧ mapGet h (str "Cache-Control")
        = some [str "public,max-age=" ++ formatInt 60 ++ str ",stale-while-revalidate="
            ++ formatInt 60] :=
  ((setCacheHeaders_cacheControl decimalEnv { Cache := some { Enable := true, Expiration := 600 } }
    [] { helloItem "v1" with expiration := 60 }).1 (by decide) (by decide)).1 (by decide)

/-- Counterexample to C4 as stated. First, an item without `Cache-Control` whose
expiration is `-1`, which is not greater than 0, with the default expiration 600
configured: the response does not get the default directive but
`public,max-age=-1,...`. Second, an item without `Cache-Control` and with expiration 60,
written to a response that already carries `Cache-Control: no-cache`: that value stays. -/
theorem setCacheHeaders_negative_counterexample :
    (¬ (0 < ({ helloItem "v1" with expiration := -1 } : CacheItem).expiration)
      ∧ mapGet ({ helloItem "v1" with expiration := -1 } : CacheItem).header
          (str "Cache-Control") = none
      ∧ setCacheHeaders decimalEnv { Cache := some { Enable := true, Expiration := 600 } } []
          { helloItem "v1" with expiration := -1 }
        = some [(str "Content-Type", [str "text/html"]), (str "Etag", [str "v1"]),
            (str "Last-Modified", [str "100"]),
            (str "Cache-Control", [str "public,max-age=-1,stale-while-revalidate=-1"])]
      ∧ str "public,max-age=-1,stale-while-revalidate=-1"
        ≠ str "public,max-age=600,s-max-age=200,stale-while-revalidate=600")
    ∧ (mapGet ({ helloItem "v1" with expiration := 60 } : CacheItem).header
          (str "Cache-Control") = none
      ∧ setCacheHeaders decimalEnv { Cache := some { Enable := true, Expiration := 600 } }
          [(str "Cache-Control", [str "no-cache"])] { helloItem "v1" with expiration := 60 }
        = some [(str "Cache-Control", [str "no-cache"]),
            (str "Content-Type", [str "text/html"]), (str "Etag", [str "v1"]),
            (str "Last-Modified", [str "100"])]) := by
  decide

/-! ## Filling the store -/

theorem mapGet_mapDelete (m : StrMap) (k k' : GoString) :
    mapGet (mapDelete m k) k' = if k = k' then none else mapGet m k' := by
  induction m with
  | nil => simp [mapDelete, mapGet]
  | cons p rest ih =>
    obtain ⟨k0, v0⟩ := p
    unfold mapDelete at ih ⊢
    by_cases h : k0 = k
    · subst h
      simp only [List.filter, ne_eq, not_true_eq_false, decide_False, ih, mapGet]
      by_cases h2 : k0 = k' <;> simp [h2]
    · simp only [List.filter, ne_eq, h, not_false_eq_true, decide_True, mapGet, ih]
      by_cases h2 : k0 = k'
      · subst h2
        simp [Ne.symm h]
      · simp [h2]

/-- The cost that `cacheItem.cost` computes is the length of the body minus one, whatever
the headers are. -/
theorem cost_eq (ci : CacheItem) : ci.cost = (ci.body.length : Int) - 1 := by
  simp only [CacheItem.cost, binarySizeString, binarySizeBytes]
  omega

/-- The cost grows strictly with the length of the body. -/
theorem cost_lt_of_body_length_lt (c1 c2 : CacheItem)
    (h : c1.body.length < c2.body.length) : c1.cost < c2.cost := by
  rw [cost_eq, cost_eq]
  omega

/-- Claim C8, the code at the failing input. For the item with the single header
`Content-Type: text/html` and the body `hello`, the serialized header block has 25 bytes
and the body 5, which add up to 30, while `cost` returns 4. -/
theorem cost_failing_input :
    headerWrite (helloItem "v1").header = str "Content-Type: text/html" ++ [13, 10]
    ∧ ((headerWrite (helloItem "v1").header).length : Int)
        + ((helloItem "v1").body.length : Int) = 30
    ∧ (helloItem "v1").cost = 4 := by
  decide

/-! ## The request handed downstream -/

theorem mapGet_clonedRequest (r : Request) (k : GoString) :
    mapGet (clonedRequest r).Header k
      = if k ∈ [str "If-Modified-Since", str "If-Unmodified-Since", str "If-None-Match",
          str "If-Match", str "If-Range", str "Range"] then none
        else mapGet r.Header k := by
  have c1 : CanonicalMIMEHeaderKey (str "If-Modified-Since") = str "If-Modified-Since" := by
    decide
  have c2 : CanonicalMIMEHeaderKey (str "If-Unmodified-Since") = str "If-Unmodified-Since" := by
    decide
  have c3 : CanonicalMIMEHeaderKey (str "If-None-Match") = str "If-None-Match" := by decide
  have c4 : CanonicalMIMEHeaderKey (str "If-Match") = str "If-Match" := by decide
  have c5 : CanonicalMIMEHeaderKey (str "If-Range") = str "If-Range" := by decide
  have c6 : CanonicalMIMEHeaderKey (str "Range") = str "Range" := by decide
  unfold clonedRequest headerDel
  simp only [mapGet_mapDelete, c1, c2, c3, c4, c5, c6, List.mem_cons, List.mem_singleton,
    List.mem_nil_iff, or_false]
  by_cases h1 : str "If-Modified-Since" = k
  · simp [h1.symm]
  by_cases h2 : str "If-Unmodified-Since" = k
  · simp [h2.symm]
  by_cases h3 : str "If-None-Match" = k
  · simp [h3.symm]
  by_cases h4 : str "If-Match" = k
  · simp [h4.symm]
  by_cases h5 : str "If-Range" = k
  · simp [h5.symm]
  by_cases h6 : str "Range" = k
  · simp [h6.symm]
  simp [h1, h2, h3, h4, h5, h6, Ne.symm h1, Ne.symm h2, Ne.symm h3, Ne.symm h4, Ne.symm h5,
    Ne.symm h6]

/-- Claim C9, amended. On a miss, the request that `getCache` hands to the downstream
handler has the method, the URL (path and query) and the context values of the inbound
request, and its headers except that `If-Modified-Since`, `If-Unmodified-Since`,
`If-None-Match`, `If-Match`, `If-Range` and `Range` are absent; the inbound request is
as it was. -/
theorem getCache_forwarded_request {σ : Type} (env : Env) (S : Store σ) (s : σ)
    (key : GoString) (next : Handler) (r : Request) (hmiss : S.Get s key = none) :
    ∃ cr, (getCache env S s key next r).forwarded = [cr]
      ∧ cr.Method = r.Method ∧ cr.URL = r.URL ∧ cr.ctx = r.ctx
      ∧ (∀ k, k ∉ [str "If-Modified-Since", str "If-Unmodified-Since", str "If-None-Match",
            str "If-Match", str "If-Range", str "Range"] →
          mapGet cr.Header k = mapGet r.Header k)
      ∧ (∀ k, k ∈ [str "If-Modified-Since", str "If-Unmodified-Since", str "If-None-Match",
            str "If-Match", str "If-Range", str "Range"] →
          mapGet cr.Header k = none ∧ headerGet cr.Header k = [])
      ∧ (getCache env S s key next r).inbound = r := by
  refine ⟨clonedRequest r, ?_, rfl, rfl, rfl, ?_, ?_, ?_⟩
  · unfold getCache
    simp only [hmiss]
    split_ifs <;> rfl
  · intro k hk
    rw [mapGet_clonedRequest, if_neg hk]
  · intro k hk
    have hcan : CanonicalMIMEHeaderKey k = k := by
      simp only [List.mem_cons, List.mem_singleton, List.mem_nil_iff, or_false] at hk
      rcases hk with h | h | h | h | h | h <;> (subst h; decide)
    have hget : mapGet (clonedRequest r).Header k = none := by
      rw [mapGet_clonedRequest, if_pos hk]
    refine ⟨hget, ?_⟩
    unfold headerGet
    rw [hcan, hget]
  · unfold getCache
    simp only [hmiss]
    split_ifs <;> rfl

/-- Witness for C9 (amended): a miss on an empty store for a request that carries
`If-None-Match` and `Accept`; the downstream handler gets the request with `Accept`
only. -/
theorem getCache_forwarded_request_witness :
    ∃ cr, (getCache decimalEnv listStore [] (str "/a") helloHandler
        (getRequest "/a" "x=1" [(str "If-None-Match", [str "v1"]), (str "Accept", [str "*"])])
          ).forwarded = [cr]
      ∧ cr.Method = str "GET" ∧ cr.URL = (getRequest "/a" "x=1" []).URL
      ∧ mapGet cr.Header (str "Accept") = some [str "*"]
      ∧ mapGet cr.Header (str "If-None-Match") = none := by
  obtain ⟨cr, h1, h2, h3, _, h5, h6, _⟩ :=
    getCache_forwarded_request decimalEnv listStore [] (str "/a") helloHandler
      (getRequest "/a" "x=1" [(str "If-None-Match", [str "v1"]), (str "Accept", [str "*"])])
      (by decide)
  exact ⟨cr, h1, h2, h3, by rw [h5 (str "Accept") (by decide)]; decide,
    (h6 (str "If-None-Match") (by decide)).1⟩

/-- Counterexample to C9 as stated: the inbound request carries `If-Range`, which is none
of `If-Modified-Since`, `If-Unmodified-Since`, `If-None-Match`, `If-Match` and `Range`;
the request handed to the downstream handler on a miss does not carry it. -/
theorem getCache_ifRange_counterexample :
    str "If-Range" ∉ [str "If-Modified-Since", str "If-Unmodified-Since", str "If-None-Match",
      str "If-Match", str "Range"]
    ∧ mapGet (getRequest "/a" "" [(str "If-Range", [str "v1"])]).Header (str "If-Range")
      = some [str "v1"]
    ∧ (getCache decimalEnv listStore [] (str "/a") helloHandler
        (getRequest "/a" "" [(str "If-Range", [str "v1"])])).forwarded
      = [getRequest "/a" "" []]
    ∧ mapGet (getRequest "/a" "" []).Header (str "If-Range") = none := by
  decide

/-! ## Escaping -/

set_option maxRecDepth 100000 in
theorem escapeByte_query_no_sep (c : Byte) :
    ch '&' ∉ escapeByte c Encoding.encodeQueryComponent
      ∧ ch '=' ∉ escapeByte c Encoding.encodeQueryComponent := by
  revert c
  decide

set_option maxRecDepth 100000 in
theorem escapeByte_path_no_question (c : Byte) :
    ch '?' ∉ escapeByte c Encoding.encodePath := by
  revert c
  decide

set_option maxRecDepth 100000 in
theorem upperhex_unhex (c : Byte) :
    ishex (upperhex (c.val / 16)) = true ∧ ishex (upperhex (c.val % 16)) = true
      ∧ (Fin.ofNat (unhex (upperhex (c.val / 16)) * 16 + unhex (upperhex (c.val % 16))) : Byte)
        = c := by
  revert c
  decide

set_option maxRecDepth 100000 in
theorem not_shouldEscape_query (c : Byte)
    (h : shouldEscape c Encoding.encodeQueryComponent = false) :
    c ≠ ch '%' ∧ c ≠ ch '+' := by
  revert c
  decide

theorem unescape_cons_of_ne (c : Byte) (t : GoString) (mode : Encoding) (h : c ≠ ch '%') :
    unescape (c :: t) mode
      = (unescape t mode).map
          (fun u => (if c = ch '+' ∧ mode = Encoding.encodeQueryComponent then ch ' ' else c)
            :: u) := by
  match t with
  | [] =>
    simp only [unescape, h, if_false, Option.map]
    split_ifs <;> rfl
  | [d] => simp only [unescape, h, if_false]
  | d :: e :: rest => simp only [unescape, h, if_false]

theorem unescape_percent (d e : Byte) (t : GoString) (mode : Encoding)
    (hd : ishex d = true) (he : ishex e = true) :
    unescape (ch '%' :: d :: e :: t) mode
      = (unescape t mode).map (fun u => (Fin.ofNat (unhex d * 16 + unhex e) : Byte) :: u) := by
  simp only [unescape, hd, he, and_self, if_true]

/-- Unescaping undoes escaping of a query component. -/
theorem QueryUnescape_QueryEscape (s : GoString) : QueryUnescape (QueryEscape s) = some s := by
  unfold QueryUnescape QueryEscape
  induction s with
  | nil => rfl
  | cons c s ih =>
    simp only [escape, escapeByte]
    by_cases hs : shouldEscape c Encoding.encodeQueryComponent = true
    · simp only [hs, if_true]
      by_cases hsp : c = ch ' '
      · subst hsp
        simp only [and_self, if_true, List.singleton_append]
        rw [unescape_cons_of_ne _ _ _ (by decide), ih]
        simp
      · simp only [hsp, false_and, if_false, List.cons_append, List.nil_append]
        obtain ⟨h1, h2, h3⟩ := upperhex_unhex c
        rw [unescape_percent _ _ _ _ h1 h2, ih, h3]
        rfl
    · have hs' : shouldEscape c Encoding.encodeQueryComponent = false := by
        simpa using hs
      obtain ⟨h1, h2⟩ := not_shouldEscape_query c hs'
      simp only [hs', Bool.false_eq_true, if_false, List.singleton_append]
      rw [unescape_cons_of_ne _ _ _ h1, ih]
      simp [h2]

theorem QueryEscape_injective (s t : GoString) (h : QueryEscape s = QueryEscape t) : s = t := by
  have h1 := QueryUnescape_QueryEscape s
  rw [h, QueryUnescape_QueryEscape] at h1
  exact (Option.some.inj h1).symm

theorem QueryEscape_no_sep (s : GoString) :
    ch '&' ∉ QueryEscape s ∧ ch '=' ∉ QueryEscape s := by
  unfold QueryEscape
  induction s with
  | nil => simp [escape]
  | cons c s ih =>
    simp only [escape, List.mem_append, not_or]
    exact ⟨⟨(escapeByte_query_no_sep c).1, ih.1⟩, ⟨(escapeByte_query_no_sep c).2, ih.2⟩⟩

theorem escape_path_no_question (s : GoString) : ch '?' ∉ escape s Encoding.encodePath := by
  induction s with
  | nil => simp [escape]
  | cons c s ih =>
    simp only [escape, List.mem_append, not_or]
    exact ⟨escapeByte_path_no_question c, ih⟩

theorem validEncoded_path_no_question (s : GoString)
    (h : validEncoded s Encoding.encodePath = true) : ch '?' ∉ s := by
  intro hmem
  unfold validEncoded at h
  rw [List.all_eq_true] at h
  have := h _ hmem
  revert this
  decide

theorem EscapedPath_no_question (u : URL) : ch '?' ∉ u.EscapedPath := by
  unfold URL.EscapedPath
  split_ifs with h1 h2
  · exact validEncoded_path_no_question _ h1.2.1
  · decide
  · exact escape_path_no_question _

/-! ## Maps built by the query parser -/

theorem parseQuerySegment_eq (m : StrMap) (seg : GoString) :
    parseQuerySegment m seg
      = match parsePair seg with
        | none => m
        | some p => mapAppend m p.1 p.2 := by
  unfold parseQuerySegment parsePair
  split_ifs
  · rfl
  · rfl
  · cases QueryUnescape (cut (ch '=') seg).1 with
    | none => rfl
    | some key =>
      cases QueryUnescape (cut (ch '=') seg).2.1 with
      | none => rfl
      | some value => rfl

theorem foldl_parseQuerySegment (segs : List GoString) (m : StrMap) :
    segs.foldl parseQuerySegment m
      = (segs.filterMap parsePair).foldl (fun m p => mapAppend m p.1 p.2) m := by
  induction segs generalizing m with
  | nil => rfl
  | cons seg segs ih =>
    simp only [List.foldl, List.filterMap_cons, ih, parseQuerySegment_eq]
    cases parsePair seg with
    | none => rfl
    | some p => rfl

/-- The parsed query is the map built from the parameters in the order written. -/
theorem Query_eq (u : URL) :
    u.Query = (queryPairs u.RawQuery).foldl (fun m p => mapAppend m p.1 p.2) [] := by
  unfold URL.Query queryPairs
  exact foldl_parseQuerySegment _ _

theorem mapGet_mapAppend (m : StrMap) (k k' v : GoString) :
    mapGet (mapAppend m k v) k'
      = if k = k' then some ((mapGet m k).getD [] ++ [v]) else mapGet m k' := by
  induction m with
  | nil => simp [mapAppend, mapGet]
  | cons p rest ih =>
    obtain ⟨k0, v0⟩ := p
    simp only [mapAppend]
    by_cases h : k0 = k
    · subst h
      simp only [if_true, mapGet]
      by_cases h2 : k0 = k' <;> simp [h2]
    · simp only [h, if_false, mapGet, ih]
      by_cases h2 : k0 = k'
      · subst h2
        simp [Ne.symm h]
      · simp [h2]

theorem valuesOf_cons (p : GoString × GoString) (ps : List (GoString × GoString))
    (k : GoString) :
    valuesOf (p :: ps) k = if p.1 = k then p.2 :: valuesOf ps k else valuesOf ps k := by
  unfold valuesOf
  by_cases h : p.1 = k <;> simp [List.filter, h]

theorem mapGet_foldl_mapAppend (ps : List (GoString × GoString)) (m : StrMap) (k : GoString) :
    mapGet (ps.foldl (fun m p => mapAppend m p.1 p.2) m) k
      = if valuesOf ps k = [] then mapGet m k
        else some ((mapGet m k).getD [] ++ valuesOf ps k) := by
  induction ps generalizing m with
  | nil => simp [valuesOf]
  | cons p ps ih =>
    simp only [List.foldl, ih, mapGet_mapAppend, valuesOf_cons]
    by_cases h : p.1 = k
    · simp only [h, if_true, Option.getD_some, List.append_assoc, List.singleton_append]
      by_cases h2 : valuesOf ps k = [] <;> simp [h2]
    · simp only [h, if_false]

/-- The values of the parsed query under a name are the values that the parameters give
to that name, in the order written; a name without parameter is not a key. -/
theorem mapGet_Query (u : URL) (k : GoString) :
    mapGet u.Query k
      = if valuesOf (queryPairs u.RawQuery) k = [] then none
        else some (valuesOf (queryPairs u.RawQuery) k) := by
  rw [Query_eq, mapGet_foldl_mapAppend]
  simp [mapGet]

theorem mem_keys_iff (m : StrMap) (k : GoString) :
    k ∈ m.map Prod.fst ↔ mapGet m k ≠ none := by
  induction m with
  | nil => simp [mapGet]
  | cons p rest ih =>
    obtain ⟨k0, v0⟩ := p
    simp only [List.map_cons, List.mem_cons, mapGet]
    by_cases h : k0 = k
    · simp [h]
    · simp [h, ih, Ne.symm h]

theorem keys_mapAppend (m : StrMap) (k v : GoString) :
    (mapAppend m k v).map Prod.fst
      = if k ∈ m.map Prod.fst then m.map Prod.fst else m.map Prod.fst ++ [k] := by
  induction m with
  | nil => simp [mapAppend]
  | cons p rest ih =>
    obtain ⟨k0, v0⟩ := p
    simp only [mapAppend]
    by_cases h : k0 = k
    · simp [h]
    · simp only [h, if_false, List.map_cons, ih, List.mem_cons, Ne.symm h, false_or]
      split_ifs <;> simp

theorem nodup_keys_mapAppend (m : StrMap) (k v : GoString) (h : (m.map Prod.fst).Nodup) :
    ((mapAppend m k v).map Prod.fst).Nodup := by
  rw [keys_mapAppend]
  split_ifs with hk
  · exact h
  · rw [List.nodup_append]
    refine ⟨h, List.nodup_singleton k, ?_⟩
    intro a ha hb
    simp only [List.mem_singleton] at hb
    subst hb
    exact hk ha

theorem nodup_keys_foldl_mapAppend (ps : List (GoString × GoString)) (m : StrMap)
    (h : (m.map Prod.fst).Nodup) :
    ((ps.foldl (fun m p => mapAppend m p.1 p.2) m).map Prod.fst).Nodup := by
  induction ps generalizing m with
  | nil => exact h
  | cons p ps ih => exact ih _ (nodup_keys_mapAppend m p.1 p.2 h)

/-- The parsed query has no key twice. -/
theorem nodup_keys_Query (u : URL) : (u.Query.map Prod.fst).Nodup := by
  rw [Query_eq]
  exact nodup_keys_foldl_mapAppend _ _ List.nodup_nil

/-! ## The order of the keys -/

theorem strLE_total (a b : GoString) : strLE a b = true ∨ strLE b a = true := by
  induction a generalizing b with
  | nil => left; rfl
  | cons x s ih =>
    cases b with
    | nil => right; rfl
    | cons y t =>
      simp only [strLE]
      by_cases h1 : x.val < y.val
      · simp [h1]
      · by_cases h2 : y.val < x.val
        · simp [h2]
        · simp only [h1, h2, if_false]
          exact ih t

theorem strLE_trans (a b c : GoString) (h1 : strLE a b = true) (h2 : strLE b c = true) :
    strLE a c = true := by
  induction a generalizing b c with
  | nil => rfl
  | cons x s ih =>
    cases b with
    | nil => simp [strLE] at h1
    | cons y t =>
      cases c with
      | nil => simp [strLE] at h2
      | cons z u =>
        simp only [strLE] at h1 h2 ⊢
        by_cases hxy : x.val < y.val
        · by_cases hyz : y.val < z.val
          · have : x.val < z.val := by omega
            simp [this]
          · by_cases hzy : z.val < y.val
            · simp [hyz, hzy] at h2
            · have : x.val < z.val := by omega
              simp [this]
        · by_cases hyx : y.val < x.val
          · simp [hxy, hyx] at h1
          · simp only [hxy, hyx, if_false] at h1
            by_cases hyz : y.val < z.val
            · have : x.val < z.val := by omega
              simp [this]
            · by_cases hzy : z.val < y.val
              · simp [hyz, hzy] at h2
              · simp only [hyz, hzy, if_false] at h2
                have e1 : ¬ x.val < z.val := by omega
                have e2 : ¬ z.val < x.val := by omega
                simp only [e1, e2, if_false]
                exact ih t u h1 h2

theorem strLE_antisymm (a b : GoString) (h1 : strLE a b = true) (h2 : strLE b a = true) :
    a = b := by
  induction a generalizing b with
  | nil =>
    cases b with
    | nil => rfl
    | cons y t => simp [strLE] at h2
  | cons x s ih =>
    cases b with
    | nil => simp [strLE] at h1
    | cons y t =>
      simp only [strLE] at h1 h2
      by_cases hxy : x.val < y.val
      · have : ¬ y.val < x.val := by omega
        simp [hxy, this] at h2
      · by_cases hyx : y.val < x.val
        · simp [hxy, hyx] at h1
        · simp only [hxy, hyx, if_false] at h1 h2
          have : x = y := Fin.ext (by omega)
          rw [this, ih t h1 h2]

/-- Maps with the same set of keys have the same sorted keys. -/
theorem sortedKeys_eq_of_perm (m1 m2 : StrMap)
    (h : (m1.map Prod.fst).Perm (m2.map Prod.fst)) : sortedKeys m1 = sortedKeys m2 := by
  haveI : IsTotal GoString (fun a b => strLE a b = true) := ⟨strLE_total⟩
  haveI : IsTrans GoString (fun a b => strLE a b = true) := ⟨strLE_trans⟩
  haveI : IsAntisymm GoString (fun a b => strLE a b = true) := ⟨strLE_antisymm⟩
  unfold sortedKeys
  exact List.eq_of_perm_of_sorted
    (((List.perm_insertionSort _ _).trans h).trans (List.perm_insertionSort _ _).symm)
    (List.sorted_insertionSort _ _) (List.sorted_insertionSort _ _)

theorem nodup_sortedKeys (m : StrMap) (h : (m.map Prod.fst).Nodup) : (sortedKeys m).Nodup :=
  (List.perm_insertionSort _ _).nodup_iff.mpr h

theorem mem_sortedKeys (m : StrMap) (k : GoString) :
    k ∈ sortedKeys m ↔ k ∈ m.map Prod.fst :=
  (List.perm_insertionSort _ _).mem_iff

/-- The encoding of a map depends on its keys and on the values under them only. -/
theorem valuesEncode_congr (m1 m2 : StrMap) (hk : (m1.map Prod.fst).Perm (m2.map Prod.fst))
    (hv : ∀ k, mapGet m1 k = mapGet m2 k) : valuesEncode m1 = valuesEncode m2 := by
  unfold valuesEncode
  have hlen : m1.length = m2.length := by
    have := hk.length_eq
    simpa using this
  have hf : (fun buf k => encodeValues (QueryEscape k) buf ((mapGet m1 k).getD []))
      = (fun buf k => encodeValues (QueryEscape k) buf ((mapGet m2 k).getD [])) := by
    funext buf k
    rw [hv k]
  rw [hlen, sortedKeys_eq_of_perm m1 m2 hk, hf]

/-- Two raw queries that give every name the same values, in the same order, parse to
maps with the same keys and the same values. -/
theorem Query_congr (u1 u2 : URL)
    (hq : ∀ k, valuesOf (queryPairs u1.RawQuery) k = valuesOf (queryPairs u2.RawQuery) k) :
    (u1.Query.map Prod.fst).Perm (u2.Query.map Prod.fst)
      ∧ ∀ k, mapGet u1.Query k = mapGet u2.Query k := by
  have hv : ∀ k, mapGet u1.Query k = mapGet u2.Query k := by
    intro k
    rw [mapGet_Query, mapGet_Query, hq k]
  refine ⟨?_, hv⟩
  rw [List.perm_ext_iff_of_nodup (nodup_keys_Query u1) (nodup_keys_Query u2)]
  intro k
  rw [mem_keys_iff, mem_keys_iff, hv k]

/-! ## The cache key -/

theorem cacheKey_eq (r : Request) :
    cacheKey r
      = modePrefix r.ctx ++ r.URL.EscapedPath
          ++ (if r.URL.Query.length > 0 then ch '?' :: valuesEncode r.URL.Query else []) := by
  unfold cacheKey modePrefix
  by_cases h1 : r.ctx.asRequest = some true <;> by_cases h2 : r.ctx.torUsed = some true <;>
    by_cases h3 : r.URL.Query.length > 0 <;> simp [h1, h2, h3]

/-- Claim C5, amended. Two requests with the same mode flags and the same escaped path
(in particular, the same `Path` and `RawPath`) whose query strings give every parameter
name the same values in the same order, the parameters being otherwise in any order,
have the same cache key. -/
theorem cacheKey_eq_of_reordered_query (r1 r2 : Request)
    (has : r1.ctx.asRequest = some true ↔ r2.ctx.asRequest = some true)
    (htor : r1.ctx.torUsed = some true ↔ r2.ctx.torUsed = some true)
    (hpath : r1.URL.EscapedPath = r2.URL.EscapedPath)
    (hq : ∀ k, valuesOf (queryPairs r1.URL.RawQuery) k
      = valuesOf (queryPairs r2.URL.RawQuery) k) :
    cacheKey r1 = cacheKey r2 := by
  obtain ⟨hk, hv⟩ := Query_congr r1.URL r2.URL hq
  have hlen : r1.URL.Query.length = r2.URL.Query.length := by
    have := hk.length_eq
    simpa using this
  have hp : modePrefix r1.ctx = modePrefix r2.ctx := by
    unfold modePrefix
    simp only [has, htor]
  rw [cacheKey_eq, cacheKey_eq, hp, hpath, hlen, valuesEncode_congr _ _ hk hv]

/-- Witness for C5 (amended): `/p?b=2&a=1&a=3` and `/p?a=1&b=2&a=3`. -/
theorem cacheKey_eq_of_reordered_query_witness :
    cacheKey (getRequest "/p" "b=2&a=1&a=3" []) = cacheKey (getRequest "/p" "a=1&b=2&a=3" [])
    ∧ cacheKey (getRequest "/p" "b=2&a=1&a=3" []) = str "/p?a=1&a=3&b=2" :=
  ⟨cacheKey_eq_of_reordered_query (getRequest "/p" "b=2&a=1&a=3" [])
    (getRequest "/p" "a=1&b=2&a=3" []) (by decide) (by decide) (by decide)
    (by
      intro k
      have h1 : queryPairs (getRequest "/p" "b=2&a=1&a=3" []).URL.RawQuery
          = [(str "b", str "2"), (str "a", str "1"), (str "a", str "3")] := by decide
      have h2 : queryPairs (getRequest "/p" "a=1&b=2&a=3" []).URL.RawQuery
          = [(str "a", str "1"), (str "b", str "2"), (str "a", str "3")] := by decide
      rw [h1, h2]
      simp only [valuesOf_cons]
      by_cases ha : str "a" = k
      · subst ha
        decide
      · by_cases hb : str "b" = k
        · subst hb
          decide
        · simp [ha, hb, valuesOf]),
   by decide⟩

/-- Counterexample to C5 as stated: `/p?a=1&a=2` and `/p?a=2&a=1` have the same flags,
the same path and the same parameters in a different order, and different cache keys. -/
theorem cacheKey_repeated_name_counterexample :
    (queryPairs (getRequest "/p" "a=1&a=2" []).URL.RawQuery).Perm
      (queryPairs (getRequest "/p" "a=2&a=1" []).URL.RawQuery)
    ∧ cacheKey (getRequest "/p" "a=1&a=2" []) = str "/p?a=1&a=2"
    ∧ cacheKey (getRequest "/p" "a=2&a=1" []) = str "/p?a=2&a=1"
    ∧ cacheKey (getRequest "/p" "a=1&a=2" []) ≠ cacheKey (getRequest "/p" "a=2&a=1" []) := by
  decide

/-! ## The encoded query -/

theorem encodeValues_eq (k : GoString) (buf : GoString) (vs : List GoString) :
    encodeValues (QueryEscape k) buf vs
      = (vs.map (fun v => (k, v))).foldl
          (fun buf p => (if buf.length > 0 then buf ++ [ch '&'] else buf) ++ QueryEscape p.1
            ++ [ch '='] ++ QueryEscape p.2) buf := by
  unfold encodeValues
  rw [List.foldl_map]

theorem foldl_encodeValues (m : StrMap) (ks : List GoString) (buf : GoString) :
    ks.foldl (fun buf k => encodeValues (QueryEscape k) buf ((mapGet m k).getD [])) buf
      = (pairsOfKeys m ks).foldl
          (fun buf p => (if buf.length > 0 then buf ++ [ch '&'] else buf) ++ QueryEscape p.1
            ++ [ch '='] ++ QueryEscape p.2) buf := by
  induction ks generalizing buf with
  | nil => rfl
  | cons k ks ih =>
    simp only [List.foldl, pairsOfKeys, List.foldl_append]
    rw [ih, encodeValues_eq]

theorem foldl_pairs_of_ne_nil (ps : List (GoString × GoString)) (buf : GoString)
    (h : buf ≠ []) :
    ps.foldl
        (fun buf p => (if buf.length > 0 then buf ++ [ch '&'] else buf) ++ QueryEscape p.1
          ++ [ch '='] ++ QueryEscape p.2) buf
      = buf ++ tailJoin ps := by
  induction ps generalizing buf with
  | nil => simp [tailJoin]
  | cons p ps ih =>
    have hpos : buf.length > 0 := List.length_pos.mpr h
    simp only [List.foldl, hpos, if_true]
    rw [ih _ (by simp)]
    simp [tailJoin, pairPiece]

theorem foldl_pairs_nil (ps : List (GoString × GoString)) :
    ps.foldl
        (fun buf p => (if buf.length > 0 then buf ++ [ch '&'] else buf) ++ QueryEscape p.1
          ++ [ch '='] ++ QueryEscape p.2) []
      = joinPairs ps := by
  cases ps with
  | nil => rfl
  | cons p ps =>
    simp only [List.foldl, List.length_nil, gt_iff_lt, lt_self_iff_false, if_false,
      List.nil_append]
    rw [foldl_pairs_of_ne_nil _ _ (by simp)]
    simp [joinPairs, pairPiece]

/-- The encoded query is the list of its parameters, keys in sorted order, each written
`key=value` and joined by `&`. -/
theorem valuesEncode_eq (m : StrMap) :
    valuesEncode m = joinPairs (pairsOfKeys m (sortedKeys m)) := by
  unfold valuesEncode
  split_ifs with h
  · have : m = [] := List.length_eq_zero.mp h
    subst this
    rfl
  · rw [foldl_encodeValues, foldl_pairs_nil]

theorem append_sep_inj {α : Type} (sep : α) (a b x y : List α) (ha : sep ∉ a) (hb : sep ∉ b)
    (hx : x = [] ∨ ∃ x', x = sep :: x') (hy : y = [] ∨ ∃ y', y = sep :: y')
    (h : a ++ x = b ++ y) : a = b ∧ x = y := by
  induction a generalizing b with
  | nil =>
    cases b with
    | nil => exact ⟨rfl, by simpa using h⟩
    | cons d b' =>
      exfalso
      simp only [List.nil_append, List.cons_append] at h
      rcases hx with hx | ⟨x', hx⟩
      · rw [hx] at h
        cases h
      · rw [hx] at h
        have := (List.cons.inj h).1
        subst this
        exact hb (List.mem_cons_self _ _)
  | cons c a' ih =>
    cases b with
    | nil =>
      exfalso
      simp only [List.nil_append, List.cons_append] at h
      rcases hy with hy | ⟨y', hy⟩
      · rw [hy] at h
        cases h
      · rw [hy] at h
        have := (List.cons.inj h).1
        subst this
        exact ha (List.mem_cons_self _ _)
    | cons d b' =>
      simp only [List.cons_append] at h
      obtain ⟨h1, h2⟩ := List.cons.inj h
      subst h1
      obtain ⟨h3, h4⟩ := ih b' (fun hm => ha (List.mem_cons_of_mem _ hm))
        (fun hm => hb (List.mem_cons_of_mem _ hm)) h2
      exact ⟨by rw [h3], h4⟩

theorem pairPiece_no_amp (p : GoString × GoString) : ch '&' ∉ pairPiece p := by
  unfold pairPiece
  simp only [List.mem_append, List.mem_cons, not_or]
  exact ⟨(QueryEscape_no_sep p.1).1, by decide, (QueryEscape_no_sep p.2).1⟩

theorem pairPiece_injective (p q : GoString × GoString) (h : pairPiece p = pairPiece q) :
    p = q := by
  unfold pairPiece at h
  obtain ⟨h1, h2⟩ := append_sep_inj (ch '=') _ _ _ _ (QueryEscape_no_sep p.1).2
    (QueryEscape_no_sep q.1).2 (Or.inr ⟨_, rfl⟩) (Or.inr ⟨_, rfl⟩) h
  have h3 := (List.cons.inj h2).2
  exact Prod.ext (QueryEscape_injective _ _ h1) (QueryEscape_injective _ _ h3)

theorem tailJoin_head (ps : List (GoString × GoString)) :
    tailJoin ps = [] ∨ ∃ x', tailJoin ps = ch '&' :: x' := by
  cases ps with
  | nil => left; rfl
  | cons p ps => right; exact ⟨_, rfl⟩

theorem tailJoin_injective (ps qs : List (GoString × GoString))
    (h : tailJoin ps = tailJoin qs) : ps = qs := by
  induction ps generalizing qs with
  | nil =>
    cases qs with
    | nil => rfl
    | cons q qs => simp [tailJoin] at h
  | cons p ps ih =>
    cases qs with
    | nil => simp [tailJoin] at h
    | cons q qs =>
      simp only [tailJoin] at h
      have h' := (List.cons.inj h).2
      obtain ⟨h1, h2⟩ := append_sep_inj (ch '&') _ _ _ _ (pairPiece_no_amp p)
        (pairPiece_no_amp q) (tailJoin_head ps) (tailJoin_head qs) h'
      rw [pairPiece_injective p q h1, ih qs h2]

/-- Different lists of parameters have different encodings. -/
theorem joinPairs_injective (ps qs : List (GoString × GoString))
    (h : joinPairs ps = joinPairs qs) : ps = qs := by
  cases ps with
  | nil =>
    cases qs with
    | nil => rfl
    | cons q qs =>
      exfalso
      simp only [joinPairs, pairPiece] at h
      have : (QueryEscape q.1 ++ ch '=' :: QueryEscape q.2 ++ tailJoin qs).length = 0 := by
        rw [← h]; rfl
      simp at this
  | cons p ps =>
    cases qs with
    | nil =>
      exfalso
      simp only [joinPairs, pairPiece] at h
      have : (QueryEscape p.1 ++ ch '=' :: QueryEscape p.2 ++ tailJoin ps).length = 0 := by
        rw [h]; rfl
      simp at this
    | cons q qs =>
      simp only [joinPairs] at h
      obtain ⟨h1, h2⟩ := append_sep_inj (ch '&') _ _ _ _ (pairPiece_no_amp p)
        (pairPiece_no_amp q) (tailJoin_head ps) (tailJoin_head qs) h
      rw [pairPiece_injective p q h1, tailJoin_injective ps qs h2]

/-! ## Cache keys do not collide -/

theorem valuesOf_append (ps qs : List (GoString × GoString)) (k : GoString) :
    valuesOf (ps ++ qs) k = valuesOf ps k ++ valuesOf qs k := by
  unfold valuesOf
  rw [List.filter_append, List.map_append]

theorem valuesOf_map_pair (k0 k : GoString) (vs : List GoString) :
    valuesOf (vs.map (fun v => (k0, v))) k = if k0 = k then vs else [] := by
  unfold valuesOf
  induction vs with
  | nil => simp
  | cons v vs ih =>
    by_cases h : k0 = k
    · simp only [h, if_true] at ih ⊢
      simp [List.filter, ih]
    · simp only [h, if_false] at ih ⊢
      simp [List.filter, h, ih]

theorem valuesOf_pairsOfKeys (m : StrMap) (ks : List GoString) (k : GoString)
    (hnd : ks.Nodup) :
    valuesOf (pairsOfKeys m ks) k = if k ∈ ks then (mapGet m k).getD [] else [] := by
  induction ks with
  | nil => simp [pairsOfKeys, valuesOf]
  | cons k0 ks ih =>
    obtain ⟨hk0, hnd'⟩ := List.nodup_cons.mp hnd
    simp only [pairsOfKeys, valuesOf_append, valuesOf_map_pair, ih hnd', List.mem_cons]
    by_cases h : k0 = k
    · subst h
      simp [hk0]
    · simp [h, Ne.symm h]

/-- The values under a key of a map without repeated key are the values of that key among
the parameters that `url.Values.Encode` writes. -/
theorem valuesOf_pairsOfKeys_sortedKeys (m : StrMap) (k : GoString)
    (hnd : (m.map Prod.fst).Nodup) :
    valuesOf (pairsOfKeys m (sortedKeys m)) k = (mapGet m k).getD [] := by
  rw [valuesOf_pairsOfKeys m _ k (nodup_sortedKeys m hnd)]
  split_ifs with h
  · rfl
  · have : mapGet m k = none := by
      by_contra hne
      exact h ((mem_sortedKeys m k).mpr ((mem_keys_iff m k).mpr hne))
    rw [this]
    rfl

/-- Two parsed queries with the same encoding have the same values under every key. -/
theorem mapGet_Query_eq_of_valuesEncode_eq (u1 u2 : URL)
    (h : valuesEncode u1.Query = valuesEncode u2.Query) (k : GoString) :
    mapGet u1.Query k = mapGet u2.Query k := by
  rw [valuesEncode_eq, valuesEncode_eq] at h
  have hp := joinPairs_injective _ _ h
  have hv : (mapGet u1.Query k).getD [] = (mapGet u2.Query k).getD [] := by
    rw [← valuesOf_pairsOfKeys_sortedKeys _ k (nodup_keys_Query u1),
      ← valuesOf_pairsOfKeys_sortedKeys _ k (nodup_keys_Query u2), hp]
  rw [mapGet_Query, mapGet_Query] at hv ⊢
  by_cases h1 : valuesOf (queryPairs u1.RawQuery) k = [] <;>
    by_cases h2 : valuesOf (queryPairs u2.RawQuery) k = [] <;>
    simp_all

theorem modePrefix_eq (c : Context) :
    modePrefix c
      = modePrefixOf (decide (c.asRequest = some true)) (decide (c.torUsed = some true)) := by
  unfold modePrefix modePrefixOf
  simp

theorem modePrefixOf_no_question (a t : Bool) : ch '?' ∉ modePrefixOf a t := by
  revert a t
  decide

theorem modePrefixOf_inj (a1 t1 a2 t2 : Bool) (e1 e2 : GoString)
    (h1 : ¬ str "as-" <+: e1) (h1' : ¬ str "tor-" <+: e1)
    (h2 : ¬ str "as-" <+: e2) (h2' : ¬ str "tor-" <+: e2)
    (h : modePrefixOf a1 t1 ++ e1 = modePrefixOf a2 t2 ++ e2) :
    a1 = a2 ∧ t1 = t2 ∧ e1 = e2 := by
  have hA : str "as-" = [ch 'a', ch 's', ch '-'] := by decide
  have hT : str "tor-" = [ch 't', ch 'o', ch 'r', ch '-'] := by decide
  have hat : ch 'a' ≠ ch 't' := by decide
  have g1 : ∀ t, e1 ≠ ch 'a' :: ch 's' :: ch '-' :: t :=
    fun t ht => h1 ⟨t, by rw [ht, hA]; rfl⟩
  have g1' : ∀ t, e1 ≠ ch 't' :: ch 'o' :: ch 'r' :: ch '-' :: t :=
    fun t ht => h1' ⟨t, by rw [ht, hT]; rfl⟩
  have g2 : ∀ t, e2 ≠ ch 'a' :: ch 's' :: ch '-' :: t :=
    fun t ht => h2 ⟨t, by rw [ht, hA]; rfl⟩
  have g2' : ∀ t, e2 ≠ ch 't' :: ch 'o' :: ch 'r' :: ch '-' :: t :=
    fun t ht => h2' ⟨t, by rw [ht, hT]; rfl⟩
  cases a1 <;> cases t1 <;> cases a2 <;> cases t2 <;>
    simp only [modePrefixOf, hA, hT, if_true, if_false, Bool.false_eq_true, List.nil_append,
      List.cons_append, List.append_nil, List.cons.injEq, true_and] at h <;>
    first
    | exact ⟨rfl, rfl, h⟩
    | exact absurd h (g1 _)
    | exact absurd h (g1' _)
    | exact absurd h.symm (g2 _)
    | exact absurd h.symm (g2' _)
    | exact absurd h.1 hat
    | exact absurd h.1.symm hat

/-- A path that is empty or begins with `/` begins neither with `as-` nor with `tor-`. -/
theorem not_modePrefix_of_rooted (p : GoString) (h : p = [] ∨ ∃ t, p = ch '/' :: t) :
    ¬ str "as-" <+: p ∧ ¬ str "tor-" <+: p := by
  have hA : str "as-" = [ch 'a', ch 's', ch '-'] := by decide
  have hT : str "tor-" = [ch 't', ch 'o', ch 'r', ch '-'] := by decide
  have h1 : ch 'a' ≠ ch '/' := by decide
  have h2 : ch 't' ≠ ch '/' := by decide
  rw [hA, hT]
  rcases h with rfl | ⟨t, rfl⟩
  · constructor
    · rintro ⟨u, hu⟩
      simp at hu
    · rintro ⟨u, hu⟩
      simp at hu
  · constructor
    · rintro ⟨u, hu⟩
      simp only [List.cons_append, List.cons.injEq] at hu
      exact h1 hu.1
    · rintro ⟨u, hu⟩
      simp only [List.cons_append, List.cons.injEq] at hu
      exact h2 hu.1

/-- Claim C6, amended. If `cacheKey` returns the same key for two requests, then they have
the same parsed query values; and if moreover neither escaped path begins with `as-` or
`tor-` (as is the case of every path that is empty or begins with `/`), they have the same
combination of mode flags and the same escaped path. -/
theorem cacheKey_injective (r1 r2 : Request) (h : cacheKey r1 = cacheKey r2) :
    (∀ k, mapGet r1.URL.Query k = mapGet r2.URL.Query k)
    ∧ (¬ str "as-" <+: r1.URL.EscapedPath → ¬ str "tor-" <+: r1.URL.EscapedPath →
        ¬ str "as-" <+: r2.URL.EscapedPath → ¬ str "tor-" <+: r2.URL.EscapedPath →
        (r1.ctx.asRequest = some true ↔ r2.ctx.asRequest = some true)
        ∧ (r1.ctx.torUsed = some true ↔ r2.ctx.torUsed = some true)
        ∧ r1.URL.EscapedPath = r2.URL.EscapedPath) := by
  rw [cacheKey_eq, cacheKey_eq, modePrefix_eq, modePrefix_eq] at h
  have hq1 : ch '?' ∉ modePrefixOf (decide (r1.ctx.asRequest = some true))
      (decide (r1.ctx.torUsed = some true)) ++ r1.URL.EscapedPath := by
    rw [List.mem_append, not_or]
    exact ⟨modePrefixOf_no_question _ _, EscapedPath_no_question _⟩
  have hq2 : ch '?' ∉ modePrefixOf (decide (r2.ctx.asRequest = some true))
      (decide (r2.ctx.torUsed = some true)) ++ r2.URL.EscapedPath := by
    rw [List.mem_append, not_or]
    exact ⟨modePrefixOf_no_question _ _, EscapedPath_no_question _⟩
  have ht1 : (if r1.URL.Query.length > 0 then ch '?' :: valuesEncode r1.URL.Query else [])
      = [] ∨ ∃ x', (if r1.URL.Query.length > 0 then ch '?' :: valuesEncode r1.URL.Query
        else []) = ch '?' :: x' := by
    split_ifs
    · exact Or.inr ⟨_, rfl⟩
    · exact Or.inl rfl
  have ht2 : (if r2.URL.Query.length > 0 then ch '?' :: valuesEncode r2.URL.Query else [])
      = [] ∨ ∃ x', (if r2.URL.Query.length > 0 then ch '?' :: valuesEncode r2.URL.Query
        else []) = ch '?' :: x' := by
    split_ifs
    · exact Or.inr ⟨_, rfl⟩
    · exact Or.inl rfl
  obtain ⟨hA, hT⟩ := append_sep_inj (ch '?') _ _ _ _ hq1 hq2 ht1 ht2 h
  constructor
  · intro k
    by_cases hl1 : r1.URL.Query.length > 0
    · by_cases hl2 : r2.URL.Query.length > 0
      · simp only [hl1, hl2, if_true, List.cons.injEq, true_and] at hT
        exact mapGet_Query_eq_of_valuesEncode_eq _ _ hT k
      · simp [hl1, hl2] at hT
    · by_cases hl2 : r2.URL.Query.length > 0
      · simp [hl1, hl2] at hT
      · have e1 : r1.URL.Query = [] := List.length_eq_zero.mp (by omega)
        have e2 : r2.URL.Query = [] := List.length_eq_zero.mp (by omega)
        rw [e1, e2]
  · intro h1 h1' h2 h2'
    obtain ⟨ha, ht, he⟩ := modePrefixOf_inj _ _ _ _ _ _ h1 h1' h2 h2' hA
    exact ⟨by simpa using ha, by simpa using ht, he⟩

/-- Witness for C6 (amended): `/p?b=2&a=1` and `/p?a=1&b=2` have the same key, hence the
same values under `a`, the same flags and the same escaped path. -/
theorem cacheKey_injective_witness :
    mapGet (getRequest "/p" "b=2&a=1" []).URL.Query (str "a")
      = mapGet (getRequest "/p" "a=1&b=2" []).URL.Query (str "a")
    ∧ (getRequest "/p" "b=2&a=1" []).URL.EscapedPath
      = (getRequest "/p" "a=1&b=2" []).URL.EscapedPath :=
  ⟨(cacheKey_injective (getRequest "/p" "b=2&a=1" []) (getRequest "/p" "a=1&b=2" [])
      (by decide)).1 (str "a"),
   ((cacheKey_injective (getRequest "/p" "b=2&a=1" []) (getRequest "/p" "a=1&b=2" [])
      (by decide)).2 (by decide) (by decide) (by decide) (by decide)).2.2⟩

/-- Counterexample to C6 as stated: the request for the path `/x` in the
alternate-rendering mode and the request without any mode flag for the relative path that
is `as-` followed by `/x` have the same cache key, and neither the same flags nor the
same escaped path. -/
theorem cacheKey_prefix_counterexample :
    cacheKey { getRequest "/x" "" [] with ctx := { emptyContext with asRequest := some true } }
      = str "as-/x"
    ∧ cacheKey (getRequest "as-/x" "" []) = str "as-/x"
    ∧ ({ getRequest "/x" "" [] with
          ctx := { emptyContext with asRequest := some true } } : Request).ctx.asRequest
        = some true
    ∧ (getRequest "as-/x" "" []).ctx.asRequest = none
    ∧ ({ getRequest "/x" "" [] with
          ctx := { emptyContext with asRequest := some true } } : Request).URL.EscapedPath
        ≠ (getRequest "as-/x" "" []).URL.EscapedPath := by
  decide

/-! ## Header synthesis without a cache configuration -/

/-- The store is enabled by `initCache` exactly when `ristretto.NewCache` returned a store
and the configuration has no `cache` section or one with `Enable` true. -/
theorem initCache_enabled_iff {σ : Type} (newCache : Option σ) (cfg : Config) (s : σ) :
    (initCache newCache cfg).1.c = some s
      ↔ newCache = some s ∧ (cfg.Cache = none ∨ ∃ cc, cfg.Cache = some cc ∧ cc.Enable = true) := by
  unfold initCache
  cases hc : cfg.Cache with
  | none => simp
  | some cc =>
    cases he : cc.Enable <;> simp [he]

/-- The call of `setCacheHeaders` panics exactly when the configuration has no `cache`
section, the item has expiration 0 and the response, after the copy of the item's headers,
has no `Cache-Control` value. -/
theorem setCacheHeaders_eq_none_iff (env : Env) (cfg : Config) (wh : Header)
    (ci : CacheItem) :
    setCacheHeaders env cfg wh ci = none
      ↔ cfg.Cache = none ∧ ci.expiration = 0
        ∧ headerGet (headerSet (headerSet (ci.header.foldr (fun kv h => mapSet h kv.1 kv.2) wh)
            (str "ETag") ci.eTag) (str "Last-Modified") (env.formatHTTPTime ci.creationTime))
            (str "Cache-Control") = [] := by
  unfold setCacheHeaders
  simp only []
  split_ifs with h1 h2
  · simp [h2]
  · cases hc : cfg.Cache with
    | none =>
      have h2' : ci.expiration = 0 := by simpa using h2
      simp [h1, h2']
    | some cc => simp
  · simp [h1]

/-- Claim C11, the code at the failing input. With no `cache` section in the
configuration, `initCache` enables the store and `defaultCacheExpiration` reads the
default expiration as 0; for the item with expiration 0 and the single header
`Content-Type`, `setCacheHeaders` does not complete (it dereferences the nil section),
and neither does the run of `cacheMiddleware` for `GET /a` on the empty store, whose
miss captures that item. -/
theorem setCacheHeaders_nil_config_failing_input :
    (initCache (some ([] : List (GoString × CacheItem))) { Cache := none }).1.c = some []
    ∧ (initCache (some ([] : List (GoString × CacheItem))) { Cache := none }).2 = false
    ∧ defaultCacheExpiration { Cache := none } = 0
    ∧ (helloItem "v1").expiration = 0
    ∧ mapGet (helloItem "v1").header (str "Cache-Control") = none
    ∧ setCacheHeaders decimalEnv { Cache := none } [] (helloItem "v1") = none
    ∧ cacheMiddleware decimalEnv listStore
        (initCache (some ([] : List (GoString × CacheItem))) { Cache := none }).1
        helloHandler freshWriter (getRequest "/a" "" []) = none := by
  decide

end GoBlog
